import Mathlib

/-!
Verification of the query-gateway core of the AI-Enhanced Crypto Onboarding
Chatbot (Python sources under `backend/src/`).  Each Python module that the
claims touch is shallowly embedded below as executable Lean definitions:

* `backend/src/usage_tracker.py`      → namespace `UsageTracker`
* `backend/src/privacy_compliance.py` → namespaces `PIIDetector`, `PrivacyCompliance`
* `backend/src/conversation_memory.py`→ namespace `ConversationMemory`
* `backend/src/llm_manager.py`        → namespace `LLMManager`
* `backend/src/response_validator.py` → namespace `ResponseValidator`

Modelling conventions, used uniformly:

* Python `datetime.utcnow()` values are modelled as integers (a time stamp in
  seconds); the code only ever subtracts and compares them.  Every method that
  reads the clock takes the current time `now : Int` as an explicit argument.
* Python floats (costs, scores) are modelled as rationals `ℚ`; `round(x, 2)`
  is modelled as rounding to a rational with denominator 100.
* Python dicts keyed by user id are modelled as association lists
  `List (String × α)` with first-match lookup; `d[k] = v` is `setk`
  (replace the first binding in place, append if absent, exactly the
  observable behaviour of a Python dict update) and `del d[k]` is `erasek`.
* Python strings are `String`/`List Char`; `str.lower` is modelled on the
  ASCII range (all pattern tables in the sources are ASCII).
* Methods that mutate `self` return the new state explicitly; methods that
  do not mutate return the state unchanged, mirroring the absence of any
  assignment in the Python body.
-/

/-! ### Generic string helpers (Python `str` operations used by the sources) -/

/-- ASCII lower-casing of one character (`str.lower`, restricted to ASCII). -/
def lowerChar (c : Char) : Char :=
  if 'A' ≤ c ∧ c ≤ 'Z' then Char.ofNat (c.toNat + 32) else c

/-- ASCII lower-casing of a character list. -/
def lowerL (s : List Char) : List Char := s.map lowerChar

/-- Boolean "is a prefix of" on character lists. -/
def prefixB : List Char → List Char → Bool
  | [], _ => true
  | _ :: _, [] => false
  | a :: as, b :: bs => a = b && prefixB as bs

/-- Python's substring test `pat in hay` (the empty pattern is in anything). -/
def occB (pat : List Char) : List Char → Bool
  | [] => prefixB pat []
  | c :: t => prefixB pat (c :: t) || occB pat t

/-- Case-insensitive prefix test (how `re.IGNORECASE` compares a literal). -/
def ciPrefixB (pat s : List Char) : Bool := prefixB (lowerL pat) (lowerL s)

/-- Python `pat in hay` on strings. -/
def containsS (hay pat : String) : Bool := occB pat.data hay.data

/-- Python `hay.count c` for a single character. -/
def countCharS (c : Char) (hay : String) : Nat := hay.data.count c

/-! ### Association lists standing for Python dicts -/

/-- First-match lookup, `d.get(k)` / `k in d`. -/
def alookup {α : Type} (k : String) : List (String × α) → Option α
  | [] => none
  | (k', v) :: t => if k' = k then some v else alookup k t

/-- `d[k] = v`: replace the first binding of `k` in place, append if absent. -/
def setk {α : Type} (k : String) (v : α) : List (String × α) → List (String × α)
  | [] => [(k, v)]
  | (k', v') :: t => if k' = k then (k, v) :: t else (k', v') :: setk k v t

/-- `del d[k]`: drop the binding(s) of `k`. -/
def erasek {α : Type} (k : String) (d : List (String × α)) : List (String × α) :=
  d.filter (fun p => p.1 ≠ k)

theorem alookup_setk_self {α : Type} (k : String) (v : α) :
    ∀ d : List (String × α), alookup k (setk k v d) = some v := by
  intro d
  induction d with
  | nil => simp [setk, alookup]
  | cons p t ih =>
      obtain ⟨k', v'⟩ := p
      by_cases h : k' = k
      · simp [setk, h, alookup]
      · simp [setk, h, alookup, ih]

theorem alookup_erasek {α : Type} (k : String) (d : List (String × α)) :
    alookup k (erasek k d) = none := by
  induction d with
  | nil => simp [erasek, alookup]
  | cons p t ih =>
      obtain ⟨k', v'⟩ := p
      by_cases h : k' = k
      · simpa [erasek, h, alookup] using ih
      · simpa [erasek, h, alookup] using ih

/-- Re-assigning the value a key already has is a no-op on a Python dict. -/
theorem setk_self {α : Type} (k : String) (v : α) :
    ∀ d : List (String × α), alookup k d = some v → setk k v d = d := by
  intro d
  induction d with
  | nil => intro h; simp [alookup] at h
  | cons p t ih =>
      obtain ⟨k', v'⟩ := p
      intro h
      by_cases hk : k' = k
      · subst hk
        simp [alookup] at h
        simp [setk, h]
      · simp [alookup, hk] at h
        simp [setk, hk, ih h]

/-! ## `usage_tracker.py` — `UsageTracker` -/

namespace UsageTracker

/-- `PricingTier` enum. -/
inductive PricingTier where
  | free
  | pro
  | enterprise
deriving DecidableEq

/-- The billing-relevant fields of a `TIER_CONFIGS` entry
(`queries_per_month = none` stands for the string `'unlimited'`;
feature-flag fields of the Python dict are not read by any claim). -/
structure TierConfig where
  queries_per_month : Option Nat
  price_monthly : ℚ
  overage_per_query : ℚ
deriving DecidableEq

/-- `UsageTracker.TIER_CONFIGS`. -/
def TIER_CONFIGS : PricingTier → TierConfig
  | .free => { queries_per_month := some 100, price_monthly := 0, overage_per_query := 0 }
  | .pro => { queries_per_month := some 10000, price_monthly := 299, overage_per_query := 1/20 }
  | .enterprise => { queries_per_month := none, price_monthly := 1999, overage_per_query := 0 }

/-- One value of the `self.user_usage` dict. -/
structure UsageRec where
  tier : PricingTier
  queries_this_month : Nat
  total_cost : ℚ
  month_start : Int
  last_query : Option Int
deriving DecidableEq

/-- `self.user_usage`. -/
def UsageState := List (String × UsageRec)

/-- `timedelta(days=30)` in seconds. -/
def thirtyDays : Int := 30 * 86400

/-- The fresh record `track_query` creates for an unknown user. -/
def freshUsage (now : Int) : UsageRec :=
  { tier := .free, queries_this_month := 0, total_cost := 0,
    month_start := now, last_query := none }

/-- `UsageTracker.track_query` (returns the allow flag and the new state). -/
def track_query (now : Int) (user_id : String) (cost : ℚ) (s : UsageState) :
    Bool × UsageState :=
  -- `if user_id not in self.user_usage: self.user_usage[user_id] = {...}`
  let usage0 : UsageRec :=
    match alookup user_id s with
    | some u => u
    | none => freshUsage now
  -- `if datetime.utcnow() - usage['month_start'] > timedelta(days=30): ...`
  let usage1 : UsageRec :=
    if now - usage0.month_start > thirtyDays then
      { usage0 with queries_this_month := 0, total_cost := 0, month_start := now }
    else usage0
  let cfg := TIER_CONFIGS usage1.tier
  match cfg.queries_per_month with
  | some limit =>
      if usage1.queries_this_month ≥ limit then
        if usage1.tier = .pro then
          (true, setk user_id
            { usage1 with
                queries_this_month := usage1.queries_this_month + 1,
                total_cost := usage1.total_cost + cfg.overage_per_query,
                last_query := some now } s)
        else
          (false, setk user_id usage1 s)
      else
        (true, setk user_id
          { usage1 with
              queries_this_month := usage1.queries_this_month + 1,
              total_cost := usage1.total_cost + cost,
              last_query := some now } s)
  | none =>
      (true, setk user_id
        { usage1 with
            queries_this_month := usage1.queries_this_month + 1,
            total_cost := usage1.total_cost + cost,
            last_query := some now } s)

/-- `round(x, 2)` on the rational model of a float. -/
def round2 (x : ℚ) : ℚ := (Int.floor (x * 100 + 1/2) : ℚ) / 100

/-- The dict `UsageTracker.get_usage` returns (`queries_remaining = none`
stands for `'unlimited'`; the trailing three fields are absent for an
unknown user). -/
structure UsageInfo where
  tier : String
  queries_this_month : Nat
  queries_remaining : Option Nat
  total_cost : Option ℚ
  month_start : Option Int
  last_query : Option (Option Int)
deriving DecidableEq

/-- `PricingTier.value`. -/
def tierValue : PricingTier → String
  | .free => "free"
  | .pro => "pro"
  | .enterprise => "enterprise"

/-- `UsageTracker.get_usage`; the Python body contains no assignment, so the
state is returned unchanged alongside the result dict. -/
def get_usage (user_id : String) (s : UsageState) : UsageInfo × UsageState :=
  match alookup user_id s with
  | none =>
      ({ tier := "free", queries_this_month := 0,
         queries_remaining := (TIER_CONFIGS .free).queries_per_month,
         total_cost := none, month_start := none, last_query := none }, s)
  | some usage =>
      let cfg := TIER_CONFIGS usage.tier
      let remaining : Option Nat :=
        match cfg.queries_per_month with
        | none => none
        | some limit => some (limit - usage.queries_this_month)
      ({ tier := tierValue usage.tier,
         queries_this_month := usage.queries_this_month,
         queries_remaining := remaining,
         total_cost := some (round2 usage.total_cost),
         month_start := some usage.month_start,
         last_query := some usage.last_query }, s)

end UsageTracker

/-! ### C1 and C10 -/

open UsageTracker in
/-- C1: a Free-tier identity whose account has already reached the quota of
100 queries in the current (non-rolled-over) period is rejected by
`track_query`: the call returns `False` and the whole usage table — hence
`queries_this_month`, `total_cost` and `last_query` — is unchanged. -/
theorem C1_free_tier_quota_rejects (now : Int) (uid : String) (cost : ℚ)
    (s : UsageState) (u : UsageRec)
    (hfound : alookup uid s = some u)
    (hfree : u.tier = PricingTier.free)
    (hperiod : ¬ now - u.month_start > thirtyDays)
    (hquota : u.queries_this_month ≥ 100) :
    track_query now uid cost s = (false, s) := by
  unfold track_query
  simp only [hfound, hperiod, if_neg, if_false]
  have hcfg : TIER_CONFIGS u.tier = TIER_CONFIGS PricingTier.free := by rw [hfree]
  rw [hcfg]
  simp only [TIER_CONFIGS]
  rw [if_pos hquota, if_neg (by rw [hfree]; intro h; cases h)]
  rw [setk_self uid u s hfound]

open UsageTracker in
/-- Witness for C1 at a concrete account that has used exactly its quota. -/
theorem C1_free_tier_quota_rejects_witness :
    track_query 5 "alice" 0
      [("alice", { tier := .free, queries_this_month := 100, total_cost := 0,
                   month_start := 0, last_query := none })]
      = (false,
         [("alice", { tier := .free, queries_this_month := 100, total_cost := 0,
                      month_start := 0, last_query := none })]) :=
  C1_free_tier_quota_rejects 5 "alice" 0 _ _ (by rfl) (by rfl) (by decide) (by decide)

open UsageTracker in
/-- C10: `get_usage` is a pure read — for any identity it leaves the usage
table untouched, and for an identity with no account it reports the
Free-tier defaults (0 used, the full Free quota of 100 remaining) without
creating an account. -/
theorem C10_get_usage_pure_read (uid : String) (s : UsageState) :
    (get_usage uid s).2 = s ∧
    (alookup uid s = none →
      (get_usage uid s).1 =
        { tier := "free", queries_this_month := 0, queries_remaining := some 100,
          total_cost := none, month_start := none, last_query := none }) := by
  constructor
  · unfold get_usage
    cases alookup uid s <;> rfl
  · intro h
    unfold get_usage
    rw [h]
    rfl

open UsageTracker in
/-- Witness for C10 at the empty usage table. -/
theorem C10_get_usage_pure_read_witness :
    (get_usage "bob" []).2 = ([] : UsageState) ∧
    (get_usage "bob" []).1 =
      { tier := "free", queries_this_month := 0, queries_remaining := some 100,
        total_cost := none, month_start := none, last_query := none } :=
  ⟨(C10_get_usage_pure_read "bob" []).1, (C10_get_usage_pure_read "bob" []).2 rfl⟩

/-! ## `privacy_compliance.py` — consent management (`PrivacyCompliance`) -/

namespace PrivacyCompliance

/-- One value of the `self.user_consents` dict. -/
structure ConsentRec where
  purposes : List String
  granted_at : Int
  expires_at : Int
deriving DecidableEq

/-- `self.user_consents`. -/
def ConsentState := List (String × ConsentRec)

/-- `timedelta(days=365)` in seconds. -/
def oneYear : Int := 365 * 86400

/-- `PrivacyCompliance.grant_consent` (returns `True` and the new state). -/
def grant_consent (now : Int) (user_id : String) (purposes : List String)
    (s : ConsentState) : Bool × ConsentState :=
  (true, setk user_id
    { purposes := purposes, granted_at := now, expires_at := now + oneYear } s)

/-- `PrivacyCompliance.has_consent`; an expired record is deleted on read,
so the (possibly shrunk) state is returned alongside the flag. -/
def has_consent (now : Int) (user_id : String) (s : ConsentState) :
    Bool × ConsentState :=
  match alookup user_id s with
  | none => (false, s)
  | some consent =>
      if now > consent.expires_at then (false, erasek user_id s)
      else (true, s)

/-- `PrivacyCompliance.revoke_consent`. -/
def revoke_consent (user_id : String) (s : ConsentState) : Bool × ConsentState :=
  match alookup user_id s with
  | some _ => (true, erasek user_id s)
  | none => (false, s)

end PrivacyCompliance

/-! ### C9 -/

open PrivacyCompliance in
/-- C9: consent grant/revoke round-trip — immediately after
`grant_consent(identity, purposes)` (same clock instant), `has_consent`
answers `True`; and immediately after `revoke_consent(identity)` (from any
state) `has_consent` answers `False`. -/
theorem C9_consent_roundtrip (now : Int) (uid : String) (purposes : List String)
    (s s' : ConsentState) (hp : purposes ≠ []) :
    (has_consent now uid (grant_consent now uid purposes s).2).1 = true ∧
    (has_consent now uid (revoke_consent uid s').2).1 = false := by
  constructor
  · unfold grant_consent has_consent
    rw [alookup_setk_self]
    simp only
    rw [if_neg (by unfold oneYear; omega)]
  · unfold revoke_consent has_consent
    cases hl : alookup uid s' with
    | none => simp only [hl]
    | some c =>
        simp only [hl]
        rw [alookup_erasek]

open PrivacyCompliance in
/-- Witness for C9 at a concrete identity, purpose list and state. -/
theorem C9_consent_roundtrip_witness :
    (has_consent 1000 "carol"
        (grant_consent 1000 "carol" ["analytics"] []).2).1 = true ∧
    (has_consent 1000 "carol"
        (revoke_consent "carol"
          [("carol", { purposes := ["analytics"], granted_at := 0,
                       expires_at := 50 })]).2).1 = false :=
  C9_consent_roundtrip 1000 "carol" ["analytics"] []
    [("carol", { purposes := ["analytics"], granted_at := 0, expires_at := 50 })]
    (by simp)

/-! ## `conversation_memory.py` — `ConversationMemory` -/

namespace ConversationMemory

/-- One entry of a conversation's `messages` deque. -/
structure Message where
  role : String
  content : String
  timestamp : Int
  metadata : List (String × String)
deriving DecidableEq

/-- One value of the `self.conversations` dict. -/
structure Conversation where
  messages : List Message
  created_at : Int
  last_active : Int
  message_count : Nat
deriving DecidableEq

/-- The constructor parameters of `ConversationMemory`
(`max_history=10`, `ttl_minutes=30`, `max_context_tokens=2000`);
`ttl` is kept in seconds. -/
structure Config where
  max_history : Nat := 10
  ttl : Int := 30 * 60
  max_context_tokens : Nat := 2000
deriving DecidableEq

/-- `self.conversations`. -/
def MemState := List (String × Conversation)

/-- `deque(maxlen=m).append`: append on the right, evict from the left once
over capacity (with `maxlen=0` the deque stays empty, as in Python). -/
def dequeAppend (maxlen : Nat) (l : List Message) (m : Message) : List Message :=
  let l' := l ++ [m]
  if l'.length > maxlen then l'.drop (l'.length - maxlen) else l'

/-- `ConversationMemory.add_message`. -/
def add_message (cfg : Config) (now : Int) (user_id role content : String)
    (metadata : List (String × String)) (s : MemState) : MemState :=
  let conv0 : Conversation :=
    match alookup user_id s with
    | some c => c
    | none =>
        { messages := [], created_at := now, last_active := now, message_count := 0 }
  let msg : Message :=
    { role := role, content := content, timestamp := now, metadata := metadata }
  setk user_id
    { conv0 with
        messages := dequeAppend cfg.max_history conv0.messages msg,
        last_active := now,
        message_count := conv0.message_count + 1 } s

/-- `"User" if msg['role'] == 'user' else "Assistant"`. -/
def roleLabel (role : String) : String :=
  if role = "user" then "User" else "Assistant"

/-- One `f"{role_label}: {content}"` line of the context. -/
def formatMsg (m : Message) : String := roleLabel m.role ++ ": " ++ m.content

/-- `"\n".join(parts)` on the underlying character lists. -/
def joinNl : List (List Char) → List Char
  | [] => []
  | [p] => p
  | p :: ps => p ++ '\n' :: joinNl ps

/-- Python's tail slice `s[-n:]` (for `n = 0` it is the whole string). -/
def pyTakeLast (n : Nat) (s : String) : String :=
  if n = 0 then s else String.mk (s.data.drop (s.data.length - n))

/-- The `context_parts` list built by `get_context` (optional header line,
then one role-labelled line per stored message). -/
def contextParts (include_system_prompt : Bool) (msgs : List Message) : List String :=
  (if include_system_prompt then
    ["Previous conversation context (for reference):\n"] else [])
  ++ msgs.map formatMsg

/-- `ConversationMemory.get_context`; an expired conversation is deleted on
read, so the (possibly shrunk) state is returned alongside the text. -/
def get_context (cfg : Config) (now : Int) (user_id : String)
    (include_system_prompt : Bool) (s : MemState) : String × MemState :=
  match alookup user_id s with
  | none => ("", s)
  | some conv =>
      if now - conv.last_active > cfg.ttl then ("", erasek user_id s)
      else
        let context : String :=
          String.mk (joinNl ((contextParts include_system_prompt conv.messages).map
            String.data))
        let max_chars := cfg.max_context_tokens * 4
        (if context.length > max_chars then pyTakeLast max_chars context else context,
         s)

theorem joinNl_suffix (x : List Char) :
    ∀ ps : List (List Char), x <:+ joinNl (ps ++ [x]) := by
  intro ps
  induction ps with
  | nil => exact List.suffix_refl x
  | cons p ps ih =>
      have hne : ps ++ [x] ≠ [] := by simp
      cases hps : ps ++ [x] with
      | nil => exact absurd hps hne
      | cons q qs =>
          show x <:+ joinNl (p :: (ps ++ [x]))
          rw [hps]
          show x <:+ p ++ '\n' :: joinNl (q :: qs)
          rw [← hps]
          exact (ih.trans (List.suffix_cons '\n' _)).trans (List.suffix_append p _)

end ConversationMemory

/-! ### C6 -/

open ConversationMemory in
/-- Helper: the Boolean substring test holds for any suffix. -/
theorem occB_of_suffix (p : List Char) : ∀ s : List Char, p <:+ s → occB p s = true := by
  have hself : ∀ q : List Char, prefixB q q = true := by
    intro q
    induction q with
    | nil => rfl
    | cons c t ih => simp [prefixB, ih]
  intro s
  induction s with
  | nil =>
      intro h
      have : p = [] := List.eq_nil_of_suffix_nil h
      subst this
      rfl
  | cons c t ih =>
      intro h
      obtain ⟨pre, hpre⟩ := h
      cases pre with
      | nil =>
          simp at hpre
          subst hpre
          simp [occB, hself]
      | cons d ds =>
          have hpre' : d = c ∧ ds ++ p = t := by simpa using hpre
          have : p <:+ t := ⟨ds, hpre'.2⟩
          simp [occB, ih this]


namespace ConversationMemory

/-- Any suffix no longer than `n` survives Python's tail slice `s[-n:]`. -/
theorem suffix_pyTakeLast {p : List Char} {s : String} {n : Nat}
    (hs : p <:+ s.data) (hn : p.length ≤ n) : p <:+ (pyTakeLast n s).data := by
  unfold pyTakeLast
  by_cases h0 : n = 0
  · simpa [h0] using hs
  · obtain ⟨pre, hpre⟩ := hs
    rw [if_neg h0]
    show p <:+ (s.data.drop (s.data.length - n))
    rw [← hpre, List.drop_append_eq_append_drop]
    have h1 : (pre ++ p).length - n - pre.length = 0 := by
      simp only [List.length_append]
      omega
    rw [h1, List.drop_zero]
    exact List.suffix_append _ p

/-- With a positive capacity, the deque append keeps the new message as the
last element. -/
theorem dequeAppend_concat (maxlen : Nat) (l : List Message) (m : Message)
    (hm : 0 < maxlen) : ∃ pre, dequeAppend maxlen l m = pre ++ [m] := by
  unfold dequeAppend
  by_cases h : (l ++ [m]).length > maxlen
  · refine ⟨l.drop ((l ++ [m]).length - maxlen), ?_⟩
    rw [if_pos h, List.drop_append_eq_append_drop]
    have h1 : (l ++ [m]).length - maxlen - l.length = 0 := by
      simp only [List.length_append, List.length_singleton]
      omega
    rw [h1, List.drop_zero]
  · exact ⟨l, by rw [if_neg h]⟩

/-- What `add_message` stores for the identity: a record whose
`last_active` is the append time and whose message list ends with the
appended message (capacity permitting). -/
theorem add_message_spec (cfg : Config) (now : Int)
    (uid role content : String) (meta : List (String × String)) (s : MemState)
    (hm : 0 < cfg.max_history) :
    ∃ conv : Conversation,
      alookup uid (add_message cfg now uid role content meta s) = some conv ∧
      conv.last_active = now ∧
      ∃ pre, conv.messages = pre ++ [(⟨role, content, now, meta⟩ : Message)] := by
  unfold add_message
  cases h : alookup uid s with
  | none =>
      simp only [h]
      exact ⟨_, alookup_setk_self uid _ s, rfl,
        dequeAppend_concat cfg.max_history _ _ hm⟩
  | some conv0 =>
      simp only [h]
      exact ⟨_, alookup_setk_self uid _ s, rfl,
        dequeAppend_concat cfg.max_history _ _ hm⟩

end ConversationMemory

open ConversationMemory in
/-- C6 (amended): for every configuration with a positive token budget,
`get_context` never returns more than `max_context_tokens * 4` characters;
and for a non-expired session with positive history capacity, the returned
context contains the most recently appended message's content whenever that
content itself fits the character budget (front-truncation keeps the tail,
so an over-budget final message is the one exception). -/
theorem C6_context_budget_and_recency (cfg : Config)
    (hbudget : 0 < cfg.max_context_tokens) :
    (∀ (now : Int) (uid : String) (inc : Bool) (s : MemState),
        ((get_context cfg now uid inc s).1).length ≤ cfg.max_context_tokens * 4) ∧
    (∀ (now₁ now₂ : Int) (uid role content : String)
        (meta : List (String × String)) (s : MemState) (inc : Bool),
        0 < cfg.max_history → now₂ - now₁ ≤ cfg.ttl →
        content.length ≤ cfg.max_context_tokens * 4 →
        containsS
          (get_context cfg now₂ uid inc
            (add_message cfg now₁ uid role content meta s)).1 content = true) := by
  constructor
  · intro now uid inc s
    unfold get_context
    cases h : alookup uid s with
    | none => simp
    | some conv =>
        by_cases hexp : now - conv.last_active > cfg.ttl
        · simp [hexp]
        · simp only [hexp, if_false]
          set ctx : String := String.mk (joinNl ((contextParts inc conv.messages).map
            String.data)) with hctx
          by_cases hlen : ctx.length > cfg.max_context_tokens * 4
          · simp only [hlen, if_true]
            show (pyTakeLast (cfg.max_context_tokens * 4) ctx).length ≤ _
            unfold pyTakeLast
            rw [if_neg (by omega)]
            show (ctx.data.drop (ctx.data.length - cfg.max_context_tokens * 4)).length ≤ _
            rw [List.length_drop]
            omega
          · simp only [hlen, if_false]
            omega
  · intro now₁ now₂ uid role content meta s inc hhist hexp hfit
    obtain ⟨conv, hlook, hact, pre, hmsgs⟩ :=
      add_message_spec cfg now₁ uid role content meta s hhist
    unfold get_context
    simp only [hlook]
    rw [if_neg (by rw [hact]; omega)]
    have hsuffix : content.data <:+
        (joinNl ((contextParts inc conv.messages).map String.data)) := by
      rw [hmsgs]
      have h1 : contextParts inc (pre ++ [(⟨role, content, now₁, meta⟩ : Message)]) =
          ((if inc then ["Previous conversation context (for reference):\n"]
              else ([] : List String)) ++ pre.map formatMsg) ++
            [formatMsg (⟨role, content, now₁, meta⟩ : Message)] := by
        unfold contextParts
        simp [List.map_append, List.append_assoc]
      rw [h1, List.map_append]
      have hc : content.data <:+
          (formatMsg (⟨role, content, now₁, meta⟩ : Message)).data :=
        ⟨(roleLabel role ++ ": ").data, rfl⟩
      exact hc.trans (joinNl_suffix _ _)
    set ctx : String := String.mk (joinNl ((contextParts inc conv.messages).map
      String.data)) with hctx
    by_cases hl : ctx.length > cfg.max_context_tokens * 4
    · simp only [hl, if_true]
      exact occB_of_suffix _ _ (suffix_pyTakeLast hsuffix hfit)
    · simp only [hl, if_false]
      exact occB_of_suffix _ _ hsuffix

open ConversationMemory in
/-- C6 counterexample: with a configured budget of `max_context_tokens = 1`
(4 characters), a non-expired session whose latest message is "hello!" yields
the context "llo!", which does not contain the most recently appended
message — refuting the unconditional recency half of the claim. -/
theorem C6_counterexample :
    ((0 : Int) - 0 ≤ (1800 : Int)) ∧
    (get_context { max_history := 10, ttl := 1800, max_context_tokens := 1 } 0 "u" true
        (add_message { max_history := 10, ttl := 1800, max_context_tokens := 1 }
          0 "u" "user" "hello!" [] [])).1 = "llo!" ∧
    containsS
      (get_context { max_history := 10, ttl := 1800, max_context_tokens := 1 } 0 "u" true
        (add_message { max_history := 10, ttl := 1800, max_context_tokens := 1 }
          0 "u" "user" "hello!" [] [])).1 "hello!" = false := by
  refine ⟨by decide, ?_, ?_⟩ <;> decide

open ConversationMemory in
/-- Witness for C6 at the default configuration and a message that fits. -/
theorem C6_context_budget_and_recency_witness :
    ((get_context { max_history := 10, ttl := 1800, max_context_tokens := 2000 } 0 "u"
        true (add_message { max_history := 10, ttl := 1800, max_context_tokens := 2000 }
          0 "u" "user" "hi" [] [])).1).length ≤ 2000 * 4 ∧
    containsS
      (get_context { max_history := 10, ttl := 1800, max_context_tokens := 2000 } 0 "u"
        true (add_message { max_history := 10, ttl := 1800, max_context_tokens := 2000 }
          0 "u" "user" "hi" [] [])).1 "hi" = true := by
  have h := C6_context_budget_and_recency
    { max_history := 10, ttl := 1800, max_context_tokens := 2000 } (by decide)
  exact ⟨h.1 0 "u" true _, h.2 0 0 "u" "user" "hi" [] [] true (by decide) (by decide)
    (by decide)⟩

/-! ## `llm_manager.py` — `LLMManager` -/

/-- The apostrophe character, kept out of string literals. -/
def apostrophe : Char := Char.ofNat 39

namespace LLMManager

/-- `LLMProvider` enum (GROQ is declared but has no `providers_config` entry). -/
inductive LLMProvider where
  | openai
  | gemini
  | perplexity
  | groq
deriving DecidableEq

/-- `LLMProvider.value`. -/
def providerValue : LLMProvider → String
  | .openai => "openai"
  | .gemini => "gemini"
  | .perplexity => "perplexity"
  | .groq => "groq"

/-- One entry of `self.providers_config`. -/
structure ProviderConf where
  cost_per_1m_tokens : ℚ
  quality_score : Nat
  speed_score : Nat
  available : Bool
deriving DecidableEq

/-- `self.providers_config` — insertion (= iteration) order of the Python
dict is GEMINI, PERPLEXITY, OPENAI. -/
structure ProvidersConfig where
  gemini : ProviderConf
  perplexity : ProviderConf
  openai : ProviderConf
deriving DecidableEq

/-- The config built in `__init__`; the three `bool(os.getenv(...))`
availability flags are parameters of the model. -/
def mkProvidersConfig (geminiAvail perplexityAvail openaiAvail : Bool) :
    ProvidersConfig :=
  { gemini :=
      { cost_per_1m_tokens := 0, quality_score := 8, speed_score := 9,
        available := geminiAvail },
    perplexity :=
      { cost_per_1m_tokens := 1/5, quality_score := 8, speed_score := 8,
        available := perplexityAvail },
    openai :=
      { cost_per_1m_tokens := 3/20, quality_score := 9, speed_score := 9,
        available := openaiAvail } }

/-- `self.providers_config[p]` (GROQ has no entry). -/
def ProvidersConfig.get (pc : ProvidersConfig) : LLMProvider → Option ProviderConf
  | .gemini => some pc.gemini
  | .perplexity => some pc.perplexity
  | .openai => some pc.openai
  | .groq => none

/-- `config['available']` of a provider (GROQ is never configured). -/
def availB (pc : ProvidersConfig) : LLMProvider → Bool
  | .gemini => pc.gemini.available
  | .perplexity => pc.perplexity.available
  | .openai => pc.openai.available
  | .groq => false

/-- `config['cost_per_1m_tokens']` of a provider. -/
def costOf (pc : ProvidersConfig) : LLMProvider → ℚ
  | .gemini => pc.gemini.cost_per_1m_tokens
  | .perplexity => pc.perplexity.cost_per_1m_tokens
  | .openai => pc.openai.cost_per_1m_tokens
  | .groq => 0

/-- `self.providers_config.keys()` in iteration order. -/
def configKeys : List LLMProvider := [.gemini, .perplexity, .openai]

/-- `self.query_stats`. -/
structure Stats where
  total_queries : Nat
  total_cost : ℚ
  provider_usage : List (String × Nat)
  fallback_count : Nat
deriving DecidableEq

/-- The stats dict as initialised in `__init__`. -/
def initStats : Stats :=
  { total_queries := 0, total_cost := 0, provider_usage := [], fallback_count := 0 }

/-- `technical_terms` of `calculate_complexity_score`. -/
def technical_terms : List String :=
  ["smart contract", "defi", "liquidity pool", "impermanent loss",
   "yield farming", "staking rewards", "gas fees", "slippage",
   "bridge", "cross-chain", "validator", "consensus"]

/-- `complex_indicators` of `calculate_complexity_score`. -/
def complex_indicators : List String := ["how", "why", "explain", "difference", "compare"]

/-- `query.lower()`. -/
def pyLower (s : String) : String := String.mk (lowerL s.data)

/-- `LLMManager.calculate_complexity_score`.  Each `in`-test contributes at
most 1 per term (`sum(1 for term in terms if term in query.lower())`). -/
def calculate_complexity_score (query : String) : Nat :=
  let score := 1
  let score := score +
    (if query.length > 200 then 2 else if query.length > 100 then 1 else 0)
  let score := score + technical_terms.countP (fun t => containsS (pyLower query) t)
  let score := score + complex_indicators.countP (fun t => containsS (pyLower query) t)
  let score := score + (if countCharS '?' query > 1 then 2 else 0)
  min score 10

/-- `LLMManager.select_provider`; `raise ValueError` becomes `Except.error`
carrying the exception text, and the `fallback_count` mutation in the final
loop threads the stats. -/
def select_provider (complexity_score : Nat) (prefer_free : Bool)
    (pc : ProvidersConfig) (stats : Stats) : Except String (LLMProvider × Stats) :=
  if complexity_score ≤ 4 ∧ prefer_free = true ∧ pc.gemini.available = true then
    .ok (.gemini, stats)
  else if complexity_score ≤ 7 ∧ pc.perplexity.available = true then
    .ok (.perplexity, stats)
  else if complexity_score ≤ 7 ∧ pc.gemini.available = true then
    .ok (.gemini, stats)
  else if pc.openai.available = true then
    .ok (.openai, stats)
  else if pc.gemini.available = true then
    .ok (.gemini, { stats with fallback_count := stats.fallback_count + 1 })
  else if pc.perplexity.available = true then
    .ok (.perplexity, { stats with fallback_count := stats.fallback_count + 1 })
  else if pc.openai.available = true then
    .ok (.openai, { stats with fallback_count := stats.fallback_count + 1 })
  else
    .error "No LLM providers available. Please configure API keys."

/-- The response dict of `query_with_routing`; fields that a given branch of
the Python code does not put into its dict are `none`. -/
structure RouteResult where
  answer : String
  provider : String
  complexity : Option Nat
  response_time : Option ℚ
  estimated_tokens : Option Int
  estimated_cost : Option ℚ
  status : String
  error : Option String
  original_provider : Option String
deriving DecidableEq

/-- `self.query_stats['provider_usage']` bump (create the key at 0 first). -/
def bumpUsage (k : String) (l : List (String × Nat)) : List (String × Nat) :=
  setk k (match alookup k l with | some n => n + 1 | none => 1) l

/-- The fixed apologetic answer of the all-providers-failed branch. -/
def apologyAnswer : String :=
  "I apologize, but I" ++ String.mk [apostrophe] ++
    "m experiencing technical difficulties. Please try again in a moment."

/-- The `for fallback in fallback_providers: try ... except: continue` loop:
first success wins, every failure is swallowed. -/
def tryFallbacks (invoke : LLMProvider → Except String String)
    (primaryVal : String) (complexity : Nat) (elapsed : ℚ) :
    List LLMProvider → Option RouteResult
  | [] => none
  | p :: rest =>
      match invoke p with
      | .ok ans =>
          some { answer := ans, provider := providerValue p,
                 complexity := some complexity, response_time := some elapsed,
                 estimated_tokens := none, estimated_cost := none,
                 status := "success_fallback", error := none,
                 original_provider := some primaryVal }
      | .error _ => tryFallbacks invoke primaryVal complexity elapsed rest

/-- `[p for p in self.providers_config.keys() if p != provider and available]`. -/
def fallbackProviders (pc : ProvidersConfig) (primary : LLMProvider) :
    List LLMProvider :=
  configKeys.filter (fun p => p ≠ primary && availB pc p)

/-- `LLMManager.query_with_routing`.  The provider call `llm.invoke` is the
external collaborator, modelled by the oracle `invoke` (answer or raised
error text); wall-clock latency is the parameter `elapsed`.  The
`select_provider` call sits before the `try` block in the source, so its
`ValueError` propagates as `Except.error`; every other failure is caught. -/
def query_with_routing (pc : ProvidersConfig)
    (invoke : LLMProvider → Except String String) (query system_prompt : String)
    (prefer_free : Bool) (elapsed : ℚ) (stats : Stats) :
    Except String (RouteResult × Stats) :=
  let complexity := calculate_complexity_score query
  match select_provider complexity prefer_free pc stats with
  | .error e => .error e
  | .ok (provider, stats₁) =>
      match invoke provider with
      | .ok answer =>
          let estimated_tokens : ℚ := ((query.length : ℚ) + (answer.length : ℚ)) / 4
          let estimated_cost : ℚ := estimated_tokens / 1000000 * costOf pc provider
          let stats₂ : Stats :=
            { stats₁ with
                total_queries := stats₁.total_queries + 1,
                total_cost := stats₁.total_cost + estimated_cost,
                provider_usage := bumpUsage (providerValue provider) stats₁.provider_usage }
          .ok ({ answer := answer, provider := providerValue provider,
                 complexity := some complexity, response_time := some elapsed,
                 estimated_tokens := some ⌊estimated_tokens⌋,
                 estimated_cost := some estimated_cost, status := "success",
                 error := none, original_provider := none }, stats₂)
      | .error e =>
          match tryFallbacks invoke (providerValue provider) complexity elapsed
              (fallbackProviders pc provider) with
          | some r => .ok (r, stats₁)
          | none =>
              .ok ({ answer := apologyAnswer, provider := "none",
                     complexity := none, response_time := none,
                     estimated_tokens := none, estimated_cost := none,
                     status := "error", error := some e,
                     original_provider := none }, stats₁)

end LLMManager

/-! ### C8 -/

/-- `List.countP` only depends on the predicate values on the list. -/
theorem countP_ext {α : Type} (f g : α → Bool) :
    ∀ l : List α, (∀ x ∈ l, f x = g x) → l.countP f = l.countP g := by
  intro l
  induction l with
  | nil => intro _; rfl
  | cons a t ih =>
      intro h
      rw [List.countP_cons, List.countP_cons, h a (by simp),
        ih (fun x hx => h x (by simp [hx]))]

open LLMManager in
/-- C8 counterexample: the technical term `defi` occurs twice in
`"defi defi"` and once in `"defi"`, yet both queries score 2 — an
occurrence beyond the first contributes no increment, contradicting the
claimed per-occurrence accumulation (no clamping is involved: both scores
are far below 10). -/
theorem C8_counterexample :
    calculate_complexity_score "defi defi" = 2 ∧
    calculate_complexity_score "defi" = 2 := by
  constructor <;> decide

open LLMManager in
/-- C8 (amended): the complexity score depends only on which technical terms
and indicator words are present (each present term contributing one
increment regardless of its number of occurrences), together with the
length band and the multiple-question-mark flag. -/
theorem C8_score_presence_only (q₁ q₂ : String)
    (hlen200 : q₁.length > 200 ↔ q₂.length > 200)
    (hlen100 : q₁.length > 100 ↔ q₂.length > 100)
    (hterms : ∀ t ∈ technical_terms, containsS (pyLower q₁) t = containsS (pyLower q₂) t)
    (hind : ∀ t ∈ complex_indicators,
      containsS (pyLower q₁) t = containsS (pyLower q₂) t)
    (hq : countCharS '?' q₁ > 1 ↔ countCharS '?' q₂ > 1) :
    calculate_complexity_score q₁ = calculate_complexity_score q₂ := by
  unfold calculate_complexity_score
  rw [countP_ext _ _ _ hterms, countP_ext _ _ _ hind]
  simp only [propext hlen200, propext hlen100, propext hq]

open LLMManager in
/-- Witness for C8: the amended theorem applied to `"defi"` versus
`"defi defi"` — same presence sets, equal scores. -/
theorem C8_score_presence_only_witness :
    calculate_complexity_score "defi" = calculate_complexity_score "defi defi" :=
  C8_score_presence_only "defi" "defi defi" (by decide) (by decide) (by decide)
    (by decide) (by decide)

/-! ### C7 -/

open LLMManager in
/-- C7 counterexample: the query "What is Bitcoin?" scores 1 (low band), yet
with Gemini unavailable and both Perplexity (0.2 per 1M tokens) and OpenAI
(0.15 per 1M tokens) available, `select_provider` picks Perplexity — not
the lowest-cost available provider. -/
theorem C7_counterexample :
    calculate_complexity_score "What is Bitcoin?" = 1 ∧
    select_provider (calculate_complexity_score "What is Bitcoin?") true
        (mkProvidersConfig false true true) initStats =
      .ok (.perplexity, initStats) ∧
    (mkProvidersConfig false true true).openai.available = true ∧
    (mkProvidersConfig false true true).openai.cost_per_1m_tokens <
      (mkProvidersConfig false true true).perplexity.cost_per_1m_tokens := by
  refine ⟨by decide, by rfl, by rfl, by norm_num [mkProvidersConfig]⟩

open LLMManager in
/-- C7 (amended): for a low-band score with `prefer_free` set, whenever the
zero-cost Gemini is available `select_provider` returns it, and it is the
lowest-cost provider among all configured ones; when Gemini is unavailable
the code falls through to the medium-band preference (Perplexity before the
cheaper OpenAI), so the lowest-cost guarantee holds exactly in the
Gemini-available case. -/
theorem C7_low_band_cheapest (score : Nat) (gA pA oA : Bool) (stats : LLMManager.Stats)
    (hs : score ≤ 4) (hg : gA = true) :
    select_provider score true (mkProvidersConfig gA pA oA) stats =
      .ok (.gemini, stats) ∧
    ∀ (p : LLMProvider) (c : ProviderConf),
      (mkProvidersConfig gA pA oA).get p = some c → c.available = true →
      (mkProvidersConfig gA pA oA).gemini.cost_per_1m_tokens ≤ c.cost_per_1m_tokens := by
  constructor
  · unfold select_provider
    rw [if_pos ⟨hs, rfl, by rw [mkProvidersConfig]; exact hg⟩]
  · intro p c hget _
    cases p <;>
      simp only [ProvidersConfig.get, mkProvidersConfig, Option.some.injEq] at hget <;>
      first
        | (rw [← hget]; norm_num [mkProvidersConfig])
        | exact absurd hget (by simp)

open LLMManager in
/-- Witness for C7 at the scenario query with all providers available. -/
theorem C7_low_band_cheapest_witness :
    select_provider (calculate_complexity_score "What is Bitcoin?") true
        (mkProvidersConfig true true true) initStats = .ok (.gemini, initStats) ∧
    ∀ (p : LLMProvider) (c : ProviderConf),
      (mkProvidersConfig true true true).get p = some c → c.available = true →
      (mkProvidersConfig true true true).gemini.cost_per_1m_tokens ≤
        c.cost_per_1m_tokens := by
  have h := C7_low_band_cheapest (calculate_complexity_score "What is Bitcoin?")
    true true true initStats (by decide) rfl
  exact h

/-! ### C2 -/

namespace LLMManager

/-- As long as some provider is available, `select_provider` does not raise,
and the provider it picks is available. -/
theorem select_provider_ok (score : Nat) (pf : Bool) (gA pA oA : Bool)
    (stats : Stats) (h : gA = true ∨ pA = true ∨ oA = true) :
    ∃ p st, select_provider score pf (mkProvidersConfig gA pA oA) stats =
      .ok (p, st) ∧ availB (mkProvidersConfig gA pA oA) p = true := by
  unfold select_provider
  split_ifs with h1 h2 h3 h4 h5 h6
  · exact ⟨.gemini, stats, rfl, h1.2.2⟩
  · exact ⟨.perplexity, stats, rfl, h2.2⟩
  · exact ⟨.gemini, stats, rfl, h3.2⟩
  · exact ⟨.openai, stats, rfl, h4⟩
  · exact ⟨.gemini, _, rfl, h5⟩
  · exact ⟨.perplexity, _, rfl, h6⟩
  · rcases h with hg | hp | ho
    · exact absurd hg h5
    · exact absurd hp h6
    · exact absurd ho h4

/-- If every provider in the list fails, the fallback loop is exhausted. -/
theorem tryFallbacks_none (invoke : LLMProvider → Except String String)
    (pv : String) (c : Nat) (t : ℚ) :
    ∀ l : List LLMProvider, (∀ p ∈ l, ∃ e, invoke p = .error e) →
      tryFallbacks invoke pv c t l = none := by
  intro l
  induction l with
  | nil => intro _; rfl
  | cons p rest ih =>
      intro h
      obtain ⟨e, he⟩ := h p (by simp)
      unfold tryFallbacks
      rw [he]
      exact ih (fun q hq => h q (by simp [hq]))

/-- If the fallback loop produced a result, some listed provider answered. -/
theorem tryFallbacks_some (invoke : LLMProvider → Except String String)
    (pv : String) (c : Nat) (t : ℚ) :
    ∀ (l : List LLMProvider) (r : RouteResult),
      tryFallbacks invoke pv c t l = some r →
      ∃ p ∈ l, ∃ a, invoke p = .ok a := by
  intro l
  induction l with
  | nil => intro r h; cases h
  | cons p rest ih =>
      intro r h
      unfold tryFallbacks at h
      cases hinv : invoke p with
      | ok a => exact ⟨p, by simp, a, hinv⟩
      | error e =>
          rw [hinv] at h
          obtain ⟨q, hq, a, ha⟩ := ih r h
          exact ⟨q, by simp [hq], a, ha⟩

/-- Everything in the fallback list is available. -/
theorem mem_fallbackProviders_avail (pc : ProvidersConfig) (primary p : LLMProvider)
    (h : p ∈ fallbackProviders pc primary) : availB pc p = true := by
  unfold fallbackProviders at h
  have := List.of_mem_filter h
  simpa using (Bool.and_eq_true _ _ |>.mp this).2

end LLMManager

open LLMManager in
/-- C2 (amended): whenever at least one provider is available,
`query_with_routing` returns a well-formed response dict; if moreover every
available provider fails, that dict is the fixed apologetic answer with
`status = "error"`, `provider = "none"`, and the error description of the
**primary** (first-selected) attempt attached — not the last attempt.  (When
no provider is available, the `ValueError` raised by `select_provider`
propagates to the caller, because that call precedes the `try` block; see
the counterexample.) -/
theorem C2_routing_returns_wellformed (gA pA oA : Bool)
    (invoke : LLMProvider → Except String String) (query sp : String) (pf : Bool)
    (elapsed : ℚ) (stats : Stats)
    (havail : gA = true ∨ pA = true ∨ oA = true) :
    ∃ r stats',
      query_with_routing (mkProvidersConfig gA pA oA) invoke query sp pf elapsed
        stats = .ok (r, stats') ∧
      ((∀ p, availB (mkProvidersConfig gA pA oA) p = true →
          ∃ e, invoke p = .error e) →
        r.status = "error" ∧ r.answer = apologyAnswer ∧ r.provider = "none" ∧
        ∃ p₀ st₀ e₀,
          select_provider (calculate_complexity_score query) pf
            (mkProvidersConfig gA pA oA) stats = .ok (p₀, st₀) ∧
          invoke p₀ = .error e₀ ∧ r.error = some e₀) := by
  obtain ⟨p₀, st₀, hsel, hav⟩ :=
    select_provider_ok (calculate_complexity_score query) pf gA pA oA stats havail
  unfold query_with_routing
  simp only [hsel]
  cases hinv : invoke p₀ with
  | ok ans =>
      refine ⟨_, _, rfl, ?_⟩
      intro hfail
      obtain ⟨e, he⟩ := hfail p₀ hav
      rw [hinv] at he
      cases he
  | error e =>
      cases htf : tryFallbacks invoke (providerValue p₀)
          (calculate_complexity_score query) elapsed
          (fallbackProviders (mkProvidersConfig gA pA oA) p₀) with
      | some r =>
          refine ⟨r, st₀, rfl, ?_⟩
          intro hfail
          obtain ⟨p₁, hp₁mem, a, ha⟩ := tryFallbacks_some _ _ _ _ _ _ htf
          obtain ⟨e', he'⟩ :=
            hfail p₁ (mem_fallbackProviders_avail _ _ _ hp₁mem)
          rw [ha] at he'
          cases he'
      | none =>
          refine ⟨_, st₀, rfl, ?_⟩
          intro _
          exact ⟨rfl, rfl, rfl, p₀, st₀, e, rfl, hinv, rfl⟩

open LLMManager in
/-- C2 counterexample, refuting the claim at two concrete inputs.  First:
with no provider available, `query_with_routing` does not return a
well-formed dict — the `ValueError` from `select_provider` escapes to the
caller.  Second: with Gemini and Perplexity available and both failing
(primary error "e1", last fallback error "e2"), the degraded response
attaches the primary error "e1", not the description of the last error. -/
theorem C2_counterexample :
    query_with_routing (mkProvidersConfig false false false)
        (fun _ => .error "boom") "" "" true 0 initStats =
      .error "No LLM providers available. Please configure API keys." ∧
    query_with_routing (mkProvidersConfig true true false)
        (fun p => match p with
          | .gemini => .error "e1"
          | _ => .error "e2") "" "" true 0 initStats =
      .ok ({ answer := apologyAnswer, provider := "none", complexity := none,
             response_time := none, estimated_tokens := none,
             estimated_cost := none, status := "error", error := some "e1",
             original_provider := none }, initStats) ∧
    (fun (p : LLMProvider) => match p with
      | .gemini => (.error "e1" : Except String String)
      | _ => (.error "e2" : Except String String)) LLMProvider.perplexity =
      .error "e2" ∧
    ("e1" : String) ≠ "e2" := by
  refine ⟨by rfl, by rfl, by rfl, by decide⟩

open LLMManager in
/-- Witness for C2 with one available provider whose invocation fails. -/
theorem C2_routing_returns_wellformed_witness :
    ∃ r stats',
      query_with_routing (mkProvidersConfig true false false)
        (fun _ => .error "x") "q" "s" true 0 initStats = .ok (r, stats') ∧
      ((∀ p, availB (mkProvidersConfig true false false) p = true →
          ∃ e, (fun (_ : LLMProvider) => (.error "x" : Except String String)) p
            = .error e) →
        r.status = "error" ∧ r.answer = apologyAnswer ∧ r.provider = "none" ∧
        ∃ p₀ st₀ e₀,
          select_provider (calculate_complexity_score "q") true
            (mkProvidersConfig true false false) initStats = .ok (p₀, st₀) ∧
          (fun (_ : LLMProvider) => (Except.error "x" : Except String String)) p₀
            = Except.error e₀ ∧ r.error = some e₀) :=
  C2_routing_returns_wellformed true false false (fun _ => .error "x") "q" "s"
    true 0 initStats (Or.inl rfl)

/-! ## `privacy_compliance.py` — `PIIDetector`

The five `PATTERNS` regexes live in a small fragment of Python `re`:
character classes, sequencing, prioritised alternation, counted/greedy
repetition and the zero-width word boundary.  The fragment is embedded with
Python backtracking preference order (leftmost position, then first
alternative, greedy repetition longest-first), `\w`/`\b` restricted to
ASCII as everywhere in this model. -/

namespace PIIDetector

/-- AST of the regex fragment: `eps`, one-character classes, sequencing,
prioritised alternation (left first), exact repetition `r{n}`, greedy
unbounded repetition `r{n,}`, and the word boundary. -/
inductive RE where
  | eps
  | cls (p : Char → Bool)
  | seq (a b : RE)
  | alt (a b : RE)
  | repe (r : RE) (n : Nat)
  | atLeast (r : RE) (n : Nat)
  | wb

/-- `r?` (greedy: presence preferred). -/
def opt (r : RE) : RE := .alt r .eps

/-- A literal character. -/
def chr (c : Char) : RE := .cls (fun d => d = c)

/-- Right-nested sequence of a list of regexes. -/
def seqL (l : List RE) : RE := l.foldr .seq .eps

/-- ASCII `\w`. -/
def isWordChar (c : Char) : Bool := c.isAlpha || c.isDigit || c = '_'

/-- `\b` between an optional previous and next character. -/
def isBoundary (prev next : Option Char) : Bool :=
  (match prev with | some c => isWordChar c | none => false) !=
  (match next with | some c => isWordChar c | none => false)

/-- The character just before the remaining input after consuming `n`
characters of `s` (for later `\b` tests). -/
def prevAfter (prev : Option Char) (s : List Char) (n : Nat) : Option Char :=
  if n = 0 then prev else (s.take n).getLast?

/-- All ways `r{n}` can match a prefix of the input, lengths in Python
backtracking preference order, given the matcher `m` of `r`. -/
def iterExact (m : Option Char → List Char → List Nat) :
    Nat → Option Char → List Char → List Nat
  | 0, _, _ => [0]
  | n + 1, prev, s =>
      (m prev s).flatMap (fun k =>
        (iterExact m n (prevAfter prev s k) (s.drop k)).map (fun j => k + j))

/-- All ways greedy `r{n,}` can match a prefix of the input (preference:
more iterations first).  `fuel` bounds the number of iterations; since
every iteration of the patterns below consumes at least one character
(zero-length iterations are cut), `input length + 1` is always enough. -/
def iterAtLeast (m : Option Char → List Char → List Nat) :
    Nat → Nat → Option Char → List Char → List Nat
  | 0, n, _, _ => if n = 0 then [0] else []
  | fuel + 1, n, prev, s =>
      ((m prev s).flatMap (fun k =>
        if k = 0 then []
        else (iterAtLeast m fuel (n - 1) (prevAfter prev s k) (s.drop k)).map
          (fun j => k + j)))
      ++ (if n = 0 then [0] else [])

/-- All lengths with which `re` matches a prefix of `s` (whose preceding
character is `prev`), in Python backtracking preference order; the head of
the list is the match the `re` module commits to at this position. -/
def reMatches : RE → Option Char → List Char → List Nat
  | .eps, _, _ => [0]
  | .wb, prev, s => if isBoundary prev s.head? then [0] else []
  | .cls p, _, [] => []
  | .cls p, _, c :: _ => if p c then [1] else []
  | .seq a b, prev, s =>
      (reMatches a prev s).flatMap (fun n =>
        (reMatches b (prevAfter prev s n) (s.drop n)).map (fun m => n + m))
  | .alt a b, prev, s => reMatches a prev s ++ reMatches b prev s
  | .repe r n, prev, s => iterExact (reMatches r) n prev s
  | .atLeast r n, prev, s => iterAtLeast (reMatches r) (s.length + 1) n prev s

/-- `re.search` scan, threading the previous character for `\b`. -/
def reSearchAux (pat : RE) : Option Char → List Char → Bool
  | prev, [] => !(reMatches pat prev []).isEmpty
  | prev, c :: t => !(reMatches pat prev (c :: t)).isEmpty || reSearchAux pat (some c) t

/-- `pattern.search(s) is not None`. -/
def reSearch (pat : RE) (s : List Char) : Bool := reSearchAux pat none s

/-- `pattern.sub(repl, s)`: leftmost match (committed length = head of the
preference list), replaced, scan resumes after the matched text of the
original string; `\b` context stays that of the original text.  `fuel` is
the input length, enough because every accepted match consumes at least one
character (a zero-length head is treated as no match; the patterns below
cannot match zero-width). -/
def reSubFuel (pat : RE) (repl : List Char) : Nat → Option Char → List Char → List Char
  | 0, _, s => s
  | _ + 1, _, [] => []
  | fuel + 1, prev, c :: t =>
      match (reMatches pat prev (c :: t)).head? with
      | some (n + 1) =>
          repl ++ reSubFuel pat repl fuel (((c :: t).take (n + 1)).getLast?)
            ((c :: t).drop (n + 1))
      | _ => c :: reSubFuel pat repl fuel (some c) t

/-- `pattern.sub(repl, s)`. -/
def reSub (pat : RE) (repl : List Char) (s : List Char) : List Char :=
  reSubFuel pat repl s.length none s

/-- `[A-Za-z0-9._%+-]` (the email local part). -/
def emailLocalClass (c : Char) : Bool :=
  c.isAlpha || c.isDigit || c = '.' || c = '_' || c = '%' || c = '+' || c = '-'

/-- `[A-Za-z0-9.-]` (the email domain). -/
def emailDomainClass (c : Char) : Bool :=
  c.isAlpha || c.isDigit || c = '.' || c = '-'

/-- `[A-Z|a-z]` (the email "TLD"; note the literal `|` inside the class). -/
def emailTldClass (c : Char) : Bool := c.isUpper || c = '|' || c.isLower

/-- `[a-fA-F0-9]`. -/
def hexClass (c : Char) : Bool :=
  c.isDigit || (97 ≤ c.toNat && c.toNat ≤ 102) || (65 ≤ c.toNat && c.toNat ≤ 70)

/-- `[-.]` (phone separators). -/
def phoneSepClass (c : Char) : Bool := c = '-' || c = '.'

/-- `[-\s]` (card separators; ASCII `\s`). -/
def cardSepClass (c : Char) : Bool :=
  c = '-' || c = ' ' || c = '\t' || c = '\n' || c = '\r' ||
    c.toNat = 11 || c.toNat = 12

/-- `\b[A-Za-z0-9._%+-]+@[A-Za-z0-9.-]+\.[A-Z|a-z]{2,}\b`. -/
def emailRE : RE :=
  seqL [.wb, .atLeast (.cls emailLocalClass) 1, chr '@',
    .atLeast (.cls emailDomainClass) 1, chr '.', .atLeast (.cls emailTldClass) 2, .wb]

/-- `\b(?:\+?1[-.]?)?\(?([0-9]{3})\)?[-.]?([0-9]{3})[-.]?([0-9]{4})\b`
(the capture groups do not affect search/sub). -/
def phoneRE : RE :=
  seqL [.wb,
    opt (seqL [opt (chr '+'), chr '1', opt (.cls phoneSepClass)]),
    opt (chr '('), .repe (.cls Char.isDigit) 3, opt (chr ')'),
    opt (.cls phoneSepClass), .repe (.cls Char.isDigit) 3,
    opt (.cls phoneSepClass), .repe (.cls Char.isDigit) 4, .wb]

/-- `\b0x[a-fA-F0-9]{40}\b`. -/
def cryptoAddressRE : RE :=
  seqL [.wb, chr '0', chr 'x', .repe (.cls hexClass) 40, .wb]

/-- `\b\d{4}[-\s]?\d{4}[-\s]?\d{4}[-\s]?\d{4}\b`. -/
def creditCardRE : RE :=
  seqL [.wb, .repe (.cls Char.isDigit) 4, opt (.cls cardSepClass),
    .repe (.cls Char.isDigit) 4, opt (.cls cardSepClass),
    .repe (.cls Char.isDigit) 4, opt (.cls cardSepClass),
    .repe (.cls Char.isDigit) 4, .wb]

/-- `\b\d{3}-\d{2}-\d{4}\b`. -/
def ssnRE : RE :=
  seqL [.wb, .repe (.cls Char.isDigit) 3, chr '-', .repe (.cls Char.isDigit) 2,
    chr '-', .repe (.cls Char.isDigit) 4, .wb]

/-- `PATTERNS` with the class-specific replacement markers of `redact`,
in dict (insertion) order. -/
def patternList : List (RE × String) :=
  [(emailRE, "[EMAIL REDACTED]"),
   (phoneRE, "[PHONE REDACTED]"),
   (cryptoAddressRE, "[WALLET ADDRESS]"),
   (creditCardRE, "[CARD NUMBER REDACTED]"),
   (ssnRE, "[SSN REDACTED]")]

/-- `PIIDetector.redact`: for each pattern class in order, if it matches the
current text, set the flag and substitute every match by the class marker. -/
def redact (text : String) : String × Bool :=
  patternList.foldl
    (fun (acc : String × Bool) (pr : RE × String) =>
      if reSearch pr.1 acc.1.data then
        (String.mk (reSub pr.1 pr.2.data acc.1.data), true)
      else acc)
    (text, false)

end PIIDetector

namespace PrivacyCompliance

/-- The dict `PrivacyCompliance.process_query` returns (`consent_required`
and `error` are only present when set). -/
structure PrivacyResult where
  cleaned_query : String
  pii_detected : Bool
  region : String
  requires_consent : Bool
  consent_required : Option Bool
  error : Option String
deriving DecidableEq

/-- `PrivacyCompliance.process_query`.  The `has_consent` call only happens
for the EU region (Python short-circuit) and may delete an expired record,
so its state is threaded. -/
def process_query (now : Int) (user_id query region : String) (s : ConsentState) :
    PrivacyResult × ConsentState :=
  let rd := PIIDetector.redact query
  let base : PrivacyResult :=
    { cleaned_query := rd.1, pii_detected := rd.2, region := region,
      requires_consent := region == "EU", consent_required := none, error := none }
  if region = "EU" then
    let hc := has_consent now user_id s
    if hc.1 = false then
      ({ base with
          consent_required := some true,
          error := some "GDPR consent required before processing" }, hc.2)
    else (base, hc.2)
  else (base, s)

/-- The two continuations of the `/api/chat` handler (`app.py`) after the
privacy check: a 403 consent rejection, or proceeding into the
provider-invoking pipeline (`query_rag`) with the cleaned query. -/
inductive ChatStep where
  | consentRejection (details : Option String)
  | invokePipeline (final_query : String)
deriving DecidableEq

/-- The consent gate of the `/api/chat` handler: if the privacy result
signals `consent_required`, return the 403 rejection before `query_rag` is
ever reached; otherwise continue with `cleaned_query`. -/
def consentGate (pr : PrivacyResult) : ChatStep :=
  if pr.consent_required = some true then .consentRejection pr.error
  else .invokePipeline pr.cleaned_query

end PrivacyCompliance

/-! ### C4 -/

open PrivacyCompliance in
/-- C4: for an EU-region query from an identity with no unexpired consent
record (a record with `expires_at` in the past counting as none),
`process_query` returns `consent_required = true` with the GDPR error
message, and the chat handler halts at the consent rejection — the
provider-invoking pipeline is never entered. -/
theorem C4_eu_without_consent_blocks (now : Int) (uid query : String)
    (s : ConsentState)
    (hnc : ∀ c : ConsentRec, alookup uid s = some c → now > c.expires_at) :
    (process_query now uid query "EU" s).1.consent_required = some true ∧
    (process_query now uid query "EU" s).1.error =
      some "GDPR consent required before processing" ∧
    consentGate (process_query now uid query "EU" s).1 =
      .consentRejection (some "GDPR consent required before processing") := by
  have hhc : (has_consent now uid s).1 = false := by
    unfold has_consent
    cases hl : alookup uid s with
    | none => rfl
    | some c =>
        simp only [hl]
        rw [if_pos (hnc c hl)]
  have hpq : (process_query now uid query "EU" s).1.consent_required = some true ∧
      (process_query now uid query "EU" s).1.error =
        some "GDPR consent required before processing" := by
    unfold process_query
    rw [if_pos rfl, if_pos hhc]
    exact ⟨rfl, rfl⟩
  refine ⟨hpq.1, hpq.2, ?_⟩
  unfold consentGate
  rw [if_pos hpq.1, hpq.2]

open PrivacyCompliance in
/-- Witness for C4: an identity whose only consent record expired. -/
theorem C4_eu_without_consent_blocks_witness :
    (process_query 10 "dave" "hello" "EU"
        [("dave", { purposes := ["analytics"], granted_at := 0,
                    expires_at := 5 })]).1.consent_required = some true ∧
    (process_query 10 "dave" "hello" "EU"
        [("dave", { purposes := ["analytics"], granted_at := 0,
                    expires_at := 5 })]).1.error =
      some "GDPR consent required before processing" ∧
    consentGate (process_query 10 "dave" "hello" "EU"
        [("dave", { purposes := ["analytics"], granted_at := 0,
                    expires_at := 5 })]).1 =
      .consentRejection (some "GDPR consent required before processing") :=
  C4_eu_without_consent_blocks 10 "dave" "hello" _
    (by
      intro c h
      injection h with h2
      rw [← h2]
      decide)

/-! ## `response_validator.py` — `ResponseValidator` -/

/-- `re.sub` of an escaped literal with `re.IGNORECASE`: replace every
non-overlapping leftmost case-insensitive occurrence of `pat`.  Structural
fuel (the input length is always enough: each step consumes at least one
character). -/
def replaceAllCIF (pat repl : List Char) : Nat → List Char → List Char
  | 0, s => s
  | _ + 1, [] => []
  | fuel + 1, c :: t =>
      if pat ≠ [] ∧ ciPrefixB pat (c :: t) = true then
        repl ++ replaceAllCIF pat repl fuel ((c :: t).drop pat.length)
      else c :: replaceAllCIF pat repl fuel t

/-- `pattern.sub(repl, s)` for a case-insensitive literal. -/
def replaceAllCI (pat repl s : List Char) : List Char :=
  replaceAllCIF pat repl s.length s

/-- ASCII Python whitespace (`str.split`, `str.strip`). -/
def isPySpaceB (c : Char) : Bool :=
  c = ' ' || c = '\t' || c = '\n' || c = '\r' || c.toNat = 11 || c.toNat = 12

/-- `str.split()` (split on whitespace runs, no empty pieces). -/
def splitWsAux : List Char → List Char → List (List Char)
  | acc, [] => if acc.isEmpty then [] else [acc.reverse]
  | acc, c :: t =>
      if isPySpaceB c then
        if acc.isEmpty then splitWsAux [] t else acc.reverse :: splitWsAux [] t
      else splitWsAux (c :: acc) t

/-- `str.split()` on a string. -/
def splitWs (s : String) : List String := (splitWsAux [] s.data).map String.mk

/-- `str.split('.')` (keeps empty pieces, always at least one). -/
def splitOnDotAux : List Char → List Char → List (List Char)
  | acc, [] => [acc.reverse]
  | acc, c :: t =>
      if c = '.' then acc.reverse :: splitOnDotAux [] t
      else splitOnDotAux (c :: acc) t

/-- `response.split('.')`. -/
def splitOnDot (s : String) : List (List Char) := splitOnDotAux [] s.data

/-- `str.strip()`. -/
def trimWs (s : List Char) : List Char :=
  ((s.dropWhile isPySpaceB).reverse.dropWhile isPySpaceB).reverse

namespace ResponseValidator

/-- The phrase `can` + apostrophe + `t lose` (the apostrophe is kept out of
string literals). -/
def canTLose : String := "can" ++ String.mk [apostrophe] ++ "t lose"

/-- `self.dangerous_phrases`, in source order. -/
def dangerous_phrases : List String :=
  ["guaranteed returns", "guaranteed profit", "no risk", "risk-free",
   "definitely safe", canTLose, "cannot lose", "100% safe", "zero risk",
   "free money", "get rich quick"]

/-- `self.financial_advice_phrases`. -/
def financial_advice_phrases : List String :=
  ["you should invest", "i recommend investing", "buy this token",
   "sell your", "you should buy", "you should sell"]

/-- `self.disclaimer_triggers`. -/
def disclaimer_triggers : List String :=
  ["invest", "trading", "profit", "returns", "gains",
   "financial", "money", "price", "value"]

/-- The `replacements` dict of `_tone_down_response`, in insertion order. -/
def replacements : List (String × String) :=
  [("guaranteed", "potentially possible"),
   ("definitely", "possibly"),
   ("always", "often"),
   ("never", "rarely"),
   ("100%", "high"),
   ("risk-free", "lower risk"),
   ("no risk", "reduced risk"),
   (canTLose, "lower risk of loss"),
   ("cannot lose", "lower risk of loss")]

/-- The disclaimer text appended by `_add_disclaimer`. -/
def disclaimerText : String :=
  "\n\n⚠️ **Disclaimer:** This information is for educational purposes only " ++
  "and should not be considered financial advice. Always do your own research " ++
  "and consult with a qualified financial advisor before making investment decisions."

/-- `ResponseValidator._check_dangerous_content`. -/
def check_dangerous_content (response : String) : List String :=
  dangerous_phrases.filterMap (fun p =>
    if containsS (LLMManager.pyLower response) p then
      some ("dangerous_claim: " ++ p)
    else none)

/-- `ResponseValidator._check_financial_advice`. -/
def check_financial_advice (response : String) : List String :=
  financial_advice_phrases.filterMap (fun p =>
    if containsS (LLMManager.pyLower response) p then
      some ("financial_advice: " ++ p)
    else none)

/-- `ResponseValidator._needs_disclaimer`. -/
def needs_disclaimer_b (response : String) : Bool :=
  disclaimer_triggers.any (fun t => containsS (LLMManager.pyLower response) t)

/-- `ResponseValidator._tone_down_response` (the second argument is only
logged by the Python code). -/
def tone_down_response (response : String) (dangerous_found : List String) :
    String :=
  replacements.foldl
    (fun acc pr => String.mk (replaceAllCI pr.1.data pr.2.data acc.data))
    response

/-- `round(x, 2)` on the rational model of a float. -/
def round2q (x : ℚ) : ℚ := (Int.floor (x * 100 + 1/2) : ℚ) / 100

/-- `ResponseValidator._assess_quality`. -/
def assess_quality (response query : String) : ℚ :=
  let score : ℚ := 1
  let score := if response.length < 50 then score * (7/10)
    else if response.length > 2000 then score * (9/10) else score
  let query_words := (splitWs (LLMManager.pyLower query)).dedup
  let response_words := (splitWs (LLMManager.pyLower response)).dedup
  let overlap := (query_words.filter (fun w => response_words.contains w)).length
  let score := if (overlap : ℚ) < (query_words.length : ℚ) * (1/5) then
    score * (4/5) else score
  let has_structure := containsS response "\n" ||
    (["1.", "2.", "•", "-"].any (fun m => containsS response m))
  let score := if has_structure = false ∧ response.length > 300 then
    score * (9/10) else score
  round2q score

/-- `ResponseValidator._verify_citations` (the caller only invokes it with a
non-empty document list; `doc.page_content` is abstracted as the document
string).  Note the source counts a sentence as grounded when its stripped
length is at least 20 but into the total only when strictly above 20. -/
def verify_citations (response : String) (source_documents : List String) : ℚ :=
  if source_documents.isEmpty then 1/2
  else
    let sentences := splitOnDot response
    let grounded := (sentences.filter (fun sen =>
      decide (20 ≤ (trimWs sen).length) &&
      source_documents.any (fun d =>
        (splitWs (LLMManager.pyLower (String.mk sen))).any (fun w =>
          decide (4 < w.length) &&
            containsS (LLMManager.pyLower d) w)))).length
    let total := (sentences.filter (fun sen => decide (20 < (trimWs sen).length))).length
    if total = 0 then 1/2
    else round2q ((grounded : ℚ) / (total : ℚ))

/-- `contradictory_pairs` of `_contains_contradictions`. -/
def contradictory_pairs : List (List String × List String) :=
  [(["always", "never"], ["sometimes", "occasionally"]),
   (["safe", "secure"], ["risky", "dangerous", "unsafe"]),
   (["recommended", "should"], ["not recommended", "should not"]),
   (["increase", "gain"], ["decrease", "loss"])]

/-- `ResponseValidator._contains_contradictions`. -/
def contains_contradictions (response : String) : Bool :=
  contradictory_pairs.any (fun pr =>
    pr.1.any (fun w => containsS (LLMManager.pyLower response) w) &&
    pr.2.any (fun w => containsS (LLMManager.pyLower response) w))

/-- The dict `ResponseValidator.validate` returns (`citation_score` only
present when source documents were supplied). -/
structure ValidationResult where
  original_response : String
  modified_response : String
  is_safe : Bool
  needs_disclaimer : Bool
  confidence_score : ℚ
  warnings : List String
  modifications : List String
  quality_score : ℚ
  citation_score : Option ℚ
deriving DecidableEq

/-- `ResponseValidator.validate`, mirroring the sequential updates of
`validation_result` in the source. -/
def validate (response query : String) (source_documents : List String) :
    ValidationResult :=
  let dangerous_found := check_dangerous_content response
  let modified₁ := if dangerous_found.isEmpty then response
    else tone_down_response response dangerous_found
  let warnings₁ := dangerous_found
  let modifications₁ : List String := if dangerous_found.isEmpty then []
    else ["toned_down_dangerous_claims"]
  let advice_found := check_financial_advice response
  let warnings₂ := warnings₁ ++
    (if advice_found.isEmpty then [] else ["contains_financial_advice"])
  let trig := needs_disclaimer_b response
  let modified₂ := if trig then modified₁ ++ disclaimerText else modified₁
  let modifications₂ := modifications₁ ++ (if trig then ["added_disclaimer"] else [])
  let quality_score := assess_quality response query
  let warnings₃ := warnings₂ ++
    (if quality_score < 1/2 then ["low_quality_response"] else [])
  let citation_score : Option ℚ := if source_documents.isEmpty then none
    else some (verify_citations response source_documents)
  let weakCite := match citation_score with
    | some cs => decide (cs < 3/10)
    | none => false
  let warnings₄ := warnings₃ ++
    (if weakCite then ["weak_source_attribution"] else [])
  let conf₁ : ℚ := if weakCite then 1 * (4/5) else 1
  let contra := contains_contradictions response
  let warnings₅ := warnings₄ ++
    (if contra then ["potential_contradictions"] else [])
  let confidence_score := if contra then conf₁ * (7/10) else conf₁
  { original_response := response,
    modified_response := modified₂,
    is_safe := dangerous_found.isEmpty,
    needs_disclaimer := (!advice_found.isEmpty) || trig,
    confidence_score := confidence_score,
    warnings := warnings₅,
    modifications := modifications₂,
    quality_score := quality_score,
    citation_score := citation_score }

end ResponseValidator

/-! ### C5 — theory of case-insensitive literal substitution

The correctness/incorrectness analysis of `_tone_down_response` rests on a
small theory of `replaceAllCI`: a pass over the text is abstracted as a
chunk list (copied characters and pattern blocks), rendered either with the
pattern (giving the lower-cased input) or with the replacement (giving the
lower-cased output), and occurrences of a tracked word are transported
between the two renderings under decidable non-overlap side conditions. -/

theorem prefixB_iff (p : List Char) : ∀ s, prefixB p s = true ↔ p <+: s := by
  induction p with
  | nil => intro s; simp [prefixB]
  | cons a as ih =>
      intro s
      cases s with
      | nil => simp [prefixB]
      | cons b bs =>
          simp only [prefixB, Bool.and_eq_true, decide_eq_true_eq,
            List.cons_prefix_cons, ih bs]

theorem occB_iff (p : List Char) : ∀ s, occB p s = true ↔ p <:+: s := by
  intro s
  induction s with
  | nil =>
      show prefixB p [] = true ↔ _
      cases p with
      | nil => simp [prefixB]
      | cons a as => simp [prefixB]
  | cons c t ih =>
      show (prefixB p (c :: t) || occB p t) = true ↔ _
      rw [List.infix_cons_iff, Bool.or_eq_true, prefixB_iff, ih]

/-- Boolean "is a suffix of". -/
def suffixB (p s : List Char) : Bool := prefixB p.reverse s.reverse

theorem suffixB_iff (p s : List Char) : suffixB p s = true ↔ p <:+ s := by
  rw [suffixB, prefixB_iff, List.reverse_prefix]

theorem occ_mono {a b : List Char} (h : a <:+: b) (l : List Char)
    (hb : occB b l = true) : occB a l = true :=
  (occB_iff a l).mpr (h.trans ((occB_iff b l).mp hb))

theorem prefix_append_split {p a b : List Char} (h : p <+: a ++ b) :
    p <+: a ∨ (a <+: p ∧ p.drop a.length <+: b) := by
  obtain ⟨t, ht⟩ := h
  rcases List.append_eq_append_iff.mp ht with ⟨w, hw1, _⟩ | ⟨w, hw1, hw2⟩
  · exact Or.inl ⟨w, hw1.symm⟩
  · refine Or.inr ⟨⟨w, hw1.symm⟩, ?_⟩
    rw [hw1, List.drop_left]
    exact ⟨t, hw2.symm⟩

theorem infix_append_cases {p a b : List Char} (h : p <:+: a ++ b) :
    p <:+: a ∨ p <:+: b ∨
      ∃ k, 0 < k ∧ k < p.length ∧ p.take k <:+ a ∧ p.drop k <+: b := by
  obtain ⟨s, t, hst⟩ := h
  have hdrop : p <+: (a ++ b).drop s.length := by
    refine ⟨t, ?_⟩
    rw [← hst, List.append_assoc, List.drop_left]
  rcases Nat.lt_or_ge s.length a.length with hlt | hge
  · rw [List.drop_append_eq_append_drop] at hdrop
    rcases prefix_append_split hdrop with h1 | ⟨h1, h2⟩
    · exact Or.inl (h1.isInfix.trans (List.drop_suffix _ _).isInfix)
    · rcases Nat.lt_or_ge (a.drop s.length).length p.length with hklt | hkge
      · refine Or.inr (Or.inr ⟨(a.drop s.length).length, ?_, hklt, ?_, ?_⟩)
        · simpa using Nat.sub_pos_of_lt hlt
        · rw [← List.prefix_iff_eq_take.mp h1]
          exact List.drop_suffix _ _
        · have hble : b.drop (s.length - a.length) = b := by
            rw [Nat.sub_eq_zero_of_le (Nat.le_of_lt hlt), List.drop_zero]
          rw [hble] at h2
          exact h2
      · have : a.drop s.length = p := h1.eq_of_length_le hkge
        exact Or.inl (by rw [← this]; exact (List.drop_suffix _ _).isInfix)
  · rw [List.drop_append_eq_append_drop, List.drop_eq_nil_of_le hge,
      List.nil_append] at hdrop
    exact Or.inr (Or.inl (hdrop.isInfix.trans (List.drop_suffix _ _).isInfix))

/-- The segmentation of a `replaceAllCIF` pass: `none` marks a replaced
pattern block, `some c` a copied character (stored lower-cased, since all
occurrence reasoning happens on lower-cased text). -/
def chunksCIF (pat : List Char) : Nat → List Char → List (Option Char)
  | 0, s => (lowerL s).map some
  | _ + 1, [] => []
  | fuel + 1, c :: t =>
      if pat ≠ [] ∧ ciPrefixB pat (c :: t) = true then
        none :: chunksCIF pat fuel ((c :: t).drop pat.length)
      else some (lowerChar c) :: chunksCIF pat fuel t

/-- Render a chunk list, writing `x` for every block. -/
def renderWith (x : List Char) : List (Option Char) → List Char
  | [] => []
  | none :: ch => x ++ renderWith x ch
  | some c :: ch => c :: renderWith x ch

theorem renderWith_map_some (x : List Char) :
    ∀ s : List Char, renderWith x (s.map some) = s := by
  intro s
  induction s with
  | nil => rfl
  | cons c t ih => simp [renderWith, ih]

theorem lowerL_append (a b : List Char) : lowerL (a ++ b) = lowerL a ++ lowerL b :=
  List.map_append lowerChar a b

theorem lowerL_drop (n : Nat) (s : List Char) :
    lowerL (s.drop n) = (lowerL s).drop n :=
  List.map_drop lowerChar s n

/-- Rendering the pass segmentation with the (lower-cased) replacement gives
the lower-cased output of the pass. -/
theorem renderWith_repl (pat repl : List Char) :
    ∀ (fuel : Nat) (s : List Char),
      lowerL (replaceAllCIF pat repl fuel s) =
        renderWith (lowerL repl) (chunksCIF pat fuel s) := by
  intro fuel
  induction fuel with
  | zero => intro s; exact (renderWith_map_some _ _).symm
  | succ fuel ih =>
      intro s
      cases s with
      | nil => rfl
      | cons c t =>
          show lowerL (if pat ≠ [] ∧ ciPrefixB pat (c :: t) = true then _ else _) = _
          by_cases hg : pat ≠ [] ∧ ciPrefixB pat (c :: t) = true
          · rw [if_pos hg, chunksCIF, if_pos hg, lowerL_append, ih, renderWith]
          · rw [if_neg hg, chunksCIF, if_neg hg]
            show lowerChar c :: lowerL (replaceAllCIF pat repl fuel t) = _
            rw [ih, renderWith]

/-- Rendering the pass segmentation with the (lower-case) pattern itself
gives the lower-cased input of the pass. -/
theorem renderWith_pat (pat : List Char) (hlow : lowerL pat = pat) :
    ∀ (fuel : Nat) (s : List Char),
      lowerL s = renderWith pat (chunksCIF pat fuel s) := by
  intro fuel
  induction fuel with
  | zero => intro s; exact (renderWith_map_some _ _).symm
  | succ fuel ih =>
      intro s
      cases s with
      | nil => rfl
      | cons c t =>
          by_cases hg : pat ≠ [] ∧ ciPrefixB pat (c :: t) = true
          · rw [chunksCIF, if_pos hg, renderWith]
            have hpre : pat <+: lowerL (c :: t) := by
              have := hg.2
              rw [ciPrefixB, hlow, prefixB_iff] at this
              exact this
            obtain ⟨rest, hrest⟩ := hpre
            rw [← hrest]
            congr 1
            have hlen : rest = (lowerL (c :: t)).drop pat.length := by
              rw [← hrest, List.drop_left]
            rw [hlen, ← lowerL_drop, ← ih]
          · rw [chunksCIF, if_neg hg, renderWith]
            show lowerChar c :: lowerL t = _
            rw [← ih]

/-- A pass whose (non-empty) pattern occurs in the lower-cased input
produces at least one block. -/
theorem chunks_has_block {pat : List Char} (hne : pat ≠ [])
    (hlow : lowerL pat = pat) :
    ∀ (fuel : Nat) (s : List Char), s.length ≤ fuel →
      pat <:+: lowerL s → none ∈ chunksCIF pat fuel s := by
  intro fuel
  induction fuel with
  | zero =>
      intro s hle hocc
      have hs : s = [] := List.eq_nil_of_length_eq_zero (Nat.le_zero.mp hle)
      subst hs
      exact absurd (List.eq_nil_of_infix_nil hocc) hne
  | succ fuel ih =>
      intro s hle hocc
      cases s with
      | nil => exact absurd (List.eq_nil_of_infix_nil hocc) hne
      | cons c t =>
          by_cases hg : pat ≠ [] ∧ ciPrefixB pat (c :: t) = true
          · rw [chunksCIF, if_pos hg]
            exact List.mem_cons_self none _
          · rw [chunksCIF, if_neg hg]
            rcases List.infix_cons_iff.mp hocc with hpre | hinf
            · exfalso
              apply hg
              refine ⟨hne, ?_⟩
              rw [ciPrefixB, hlow, prefixB_iff]
              exact hpre
            · exact List.mem_cons_of_mem _
                (ih t (by simpa using Nat.le_of_succ_le_succ hle) hinf)

/-- A block in the chunk list puts the replacement into the rendering. -/
theorem renderWith_block (r : List Char) :
    ∀ ch : List (Option Char), none ∈ ch → r <:+: renderWith r ch := by
  intro ch
  induction ch with
  | nil => intro h; cases h
  | cons o t ih =>
      intro h
      cases o with
      | none => exact (List.prefix_append r _).isInfix
      | some c =>
          have : none ∈ t := by
            rcases List.mem_cons.mp h with h1 | h1
            · cases h1
            · exact h1
          exact (ih this).trans (List.suffix_cons c _).isInfix

/-- Decidable side conditions under which a pass `q → r` cannot create an
occurrence of the tracked word `p`: `p` does not occur in `r`; no proper
tail of `p` is a prefix of `r` and `r` is not a prefix of any tail of `p`
(so a partial match cannot run into a block); and any proper head of `p`
that ends a block must also end the pattern `q` itself (so such a crossing
occurrence reconstructs an occurrence already present before the pass). -/
def removalOK (p q r : List Char) : Bool :=
  decide (2 ≤ p.length) && !(occB p r) &&
  ((List.range p.length).all fun k =>
    !(prefixB (p.drop k) r) && !(prefixB r (p.drop k))) &&
  ((List.range p.length).all fun k =>
    decide (k = 0) || !(suffixB (p.take k) r) || suffixB (p.take k) q)

theorem removalOK_spec {p q r : List Char} (h : removalOK p q r = true) :
    2 ≤ p.length ∧ ¬ (p <:+: r) ∧
    (∀ k, k < p.length → ¬ (p.drop k <+: r) ∧ ¬ (r <+: p.drop k)) ∧
    (∀ k, 0 < k → k < p.length → p.take k <:+ r → p.take k <:+ q) := by
  simp only [removalOK, Bool.and_eq_true, decide_eq_true_eq, List.all_eq_true,
    List.mem_range, Bool.not_eq_true', Bool.or_eq_true] at h
  obtain ⟨⟨⟨h1, h2⟩, h3⟩, h4⟩ := h
  refine ⟨h1, ?_, ?_, ?_⟩
  · intro hocc
    rw [← occB_iff, h2] at hocc
    cases hocc
  · intro k hk
    constructor
    · intro hpre
      rw [← prefixB_iff, (h3 k hk).1] at hpre
      cases hpre
    · intro hpre
      rw [← prefixB_iff, (h3 k hk).2] at hpre
      cases hpre
  · intro k h0 hk hsuf
    rcases h4 k hk with (hz | hfalse) | htrue
    · omega
    · exact absurd ((suffixB_iff _ _).mpr hsuf) (by simp [hfalse])
    · exact (suffixB_iff _ _).mp htrue

theorem removal_aux {p q r : List Char} (hok : removalOK p q r = true) :
    ∀ (ch : List (Option Char)) (k : Nat), 0 < k → k < p.length →
      p.drop k <+: renderWith r ch → p.drop k <+: renderWith q ch := by
  obtain ⟨hlen, hnocc, hdrops, hcross⟩ := removalOK_spec hok
  intro ch
  induction ch with
  | nil =>
      intro k h0 hk hpre
      have hnil : p.drop k = [] := List.prefix_nil.mp hpre
      have := congrArg List.length hnil
      simp at this
      omega
  | cons o ch ih =>
      cases o with
      | some c =>
          intro k h0 hk hpre
          rw [show renderWith r (some c :: ch) = c :: renderWith r ch from rfl] at hpre
          rw [List.drop_eq_getElem_cons hk] at hpre ⊢
          obtain ⟨hc, hrest⟩ := List.cons_prefix_cons.mp hpre
          show _ <+: c :: renderWith q ch
          rcases Nat.lt_or_ge (k + 1) p.length with hlt | hge
          · exact List.cons_prefix_cons.mpr ⟨hc, ih (k + 1) (by omega) hlt hrest⟩
          · have hnil : p.drop (k + 1) = [] := List.drop_eq_nil_of_le hge
            rw [hnil]
            exact List.cons_prefix_cons.mpr ⟨hc, List.nil_prefix⟩
      | none =>
          intro k h0 hk hpre
          rw [show renderWith r (none :: ch) = r ++ renderWith r ch from rfl] at hpre
          rcases prefix_append_split hpre with h1 | ⟨h1, _⟩
          · exact absurd h1 (hdrops k hk).1
          · exact absurd h1 (hdrops k hk).2

theorem removal_preserved {p q r : List Char} (hok : removalOK p q r = true) :
    ∀ ch : List (Option Char),
      ¬ p <:+: renderWith q ch → ¬ p <:+: renderWith r ch := by
  obtain ⟨hlen, hnocc, hdrops, hcross⟩ := removalOK_spec hok
  intro ch
  induction ch with
  | nil => exact fun h => h
  | cons o ch ih =>
      cases o with
      | some c =>
          intro hq hr
          rw [show renderWith r (some c :: ch) = c :: renderWith r ch from rfl] at hr
          rcases List.infix_cons_iff.mp hr with hpre | hinf
          · have h0 : (0 : Nat) < p.length := by omega
            rw [show p = p.drop 0 from rfl, List.drop_eq_getElem_cons h0] at hpre
            obtain ⟨hc, hrest⟩ := List.cons_prefix_cons.mp hpre
            have hq' : p.drop 1 <+: renderWith q ch :=
              removal_aux hok ch 1 (by omega) (by omega) hrest
            apply hq
            rw [show renderWith q (some c :: ch) = c :: renderWith q ch from rfl]
            apply List.IsPrefix.isInfix
            rw [show p = p.drop 0 from rfl, List.drop_eq_getElem_cons h0]
            exact List.cons_prefix_cons.mpr ⟨hc, hq'⟩
          · exact ih (fun h => hq (List.infix_cons_iff.mpr (Or.inr h))) hinf
      | none =>
          intro hq hr
          rw [show renderWith r (none :: ch) = r ++ renderWith r ch from rfl] at hr
          rcases infix_append_cases hr with h1 | h1 | ⟨k, hk0, hklt, htake, hdrop⟩
          · exact hnocc h1
          · refine ih (fun h => hq ?_) h1
            rw [show renderWith q (none :: ch) = q ++ renderWith q ch from rfl]
            exact h.trans (List.suffix_append q _).isInfix
          · have hdq : p.drop k <+: renderWith q ch :=
              removal_aux hok ch k hk0 hklt hdrop
            have htq : p.take k <:+ q := hcross k hk0 hklt htake
            apply hq
            rw [show renderWith q (none :: ch) = q ++ renderWith q ch from rfl]
            obtain ⟨q0, hq0⟩ := htq
            obtain ⟨rest, hrest⟩ := hdq
            refine ⟨q0, rest, ?_⟩
            have halg : q0 ++ p ++ rest = (q0 ++ p.take k) ++ (p.drop k ++ rest) := by
              simp only [List.append_assoc]
              rw [← List.append_assoc (List.take k p), List.take_append_drop]
            rw [halg, hq0, hrest]

/-- Decidable test that the strings `m` and `q` admit no overlapping
placement (neither contains the other, no edge of one matches an edge of
the other): then a `q`-substitution pass can never touch an occurrence of
`m`. -/
def overlapsB (m q : List Char) : Bool :=
  occB m q || occB q m ||
  ((List.range (min m.length q.length)).any fun i =>
    suffixB (m.take (i + 1)) q || suffixB (q.take (i + 1)) m)

theorem overlapsB_spec {m q : List Char} (h : overlapsB m q = false) :
    ¬ (m <:+: q) ∧ ¬ (q <:+: m) ∧
    (∀ k, 0 < k → k ≤ m.length → k ≤ q.length →
      ¬ (m.take k <:+ q) ∧ ¬ (q.take k <:+ m)) := by
  simp only [overlapsB, Bool.or_eq_false_iff, List.any_eq_false, List.mem_range,
    Bool.or_eq_true, not_or, Bool.not_eq_true] at h
  obtain ⟨⟨h1, h2⟩, h3⟩ := h
  refine ⟨?_, ?_, ?_⟩
  · intro hocc
    rw [← occB_iff, h1] at hocc
    cases hocc
  · intro hocc
    rw [← occB_iff, h2] at hocc
    cases hocc
  · intro k hk0 hkm hkq
    have hi : k - 1 < min m.length q.length := by omega
    have hthis := h3 (k - 1) hi
    have hk1 : k - 1 + 1 = k := by omega
    rw [hk1] at hthis
    constructor
    · intro hs
      rw [← suffixB_iff, hthis.1] at hs
      cases hs
    · intro hs
      rw [← suffixB_iff, hthis.2] at hs
      cases hs

theorem pres_aux {m q : List Char} (hno : overlapsB m q = false) :
    ∀ (ch : List (Option Char)) (r : List Char) (k : Nat), k < m.length →
      m.drop k <+: renderWith q ch → m.drop k <+: renderWith r ch := by
  obtain ⟨hmq, hqm, hedge⟩ := overlapsB_spec hno
  intro ch
  induction ch with
  | nil =>
      intro r k hk hpre
      have hnil : m.drop k = [] := List.prefix_nil.mp hpre
      have := congrArg List.length hnil
      simp at this
      omega
  | cons o ch ih =>
      cases o with
      | some c =>
          intro r k hk hpre
          rw [show renderWith q (some c :: ch) = c :: renderWith q ch from rfl] at hpre
          rw [List.drop_eq_getElem_cons hk] at hpre ⊢
          obtain ⟨hc, hrest⟩ := List.cons_prefix_cons.mp hpre
          show _ <+: c :: renderWith r ch
          rcases Nat.lt_or_ge (k + 1) m.length with hlt | hge
          · exact List.cons_prefix_cons.mpr ⟨hc, ih r (k + 1) hlt hrest⟩
          · have hnil : m.drop (k + 1) = [] := List.drop_eq_nil_of_le hge
            rw [hnil]
            exact List.cons_prefix_cons.mpr ⟨hc, List.nil_prefix⟩
      | none =>
          intro r k hk hpre
          rw [show renderWith q (none :: ch) = q ++ renderWith q ch from rfl] at hpre
          exfalso
          rcases prefix_append_split hpre with h1 | ⟨h1, _⟩
          · rcases Nat.eq_zero_or_pos k with hk0 | hk0
            · subst hk0
              rw [List.drop_zero] at h1
              exact hmq h1.isInfix
            · have hlen : m.length - k ≤ q.length := by
                have := h1.length_le
                simp at this
                omega
              have htake : q.take (m.length - k) = m.drop k := by
                have heq := List.prefix_iff_eq_take.mp h1
                rw [heq]
                congr 1
                simp
              refine (hedge (m.length - k) (by omega) (by omega) hlen).2 ?_
              rw [htake]
              exact List.drop_suffix k m
          · exact hqm (h1.isInfix.trans (List.drop_suffix k m).isInfix)

theorem pres_preserved {m q : List Char} (hno : overlapsB m q = false) :
    ∀ (ch : List (Option Char)) (r : List Char),
      m <:+: renderWith q ch → m <:+: renderWith r ch := by
  obtain ⟨hmq, hqm, hedge⟩ := overlapsB_spec hno
  intro ch
  induction ch with
  | nil => exact fun r h => h
  | cons o ch ih =>
      cases o with
      | some c =>
          intro r hq
          rw [show renderWith q (some c :: ch) = c :: renderWith q ch from rfl] at hq
          rw [show renderWith r (some c :: ch) = c :: renderWith r ch from rfl]
          rcases List.infix_cons_iff.mp hq with hpre | hinf
          · rcases Nat.eq_zero_or_pos m.length with hlen0 | hlen0
            · have hnil : m = [] := List.eq_nil_of_length_eq_zero hlen0
              subst hnil
              exact List.nil_infix
            · rw [show m = m.drop 0 from rfl, List.drop_eq_getElem_cons hlen0] at hpre
              obtain ⟨hc, hrest⟩ := List.cons_prefix_cons.mp hpre
              have h2 : m.drop 1 <+: renderWith r ch := by
                rcases Nat.lt_or_ge 1 m.length with hlt | hge
                · exact pres_aux hno ch r 1 hlt hrest
                · rw [List.drop_eq_nil_of_le hge]
                  exact List.nil_prefix
              apply List.IsPrefix.isInfix
              rw [show m = m.drop 0 from rfl, List.drop_eq_getElem_cons hlen0]
              exact List.cons_prefix_cons.mpr ⟨hc, h2⟩
          · exact (ih r hinf).trans (List.suffix_cons c _).isInfix
      | none =>
          intro r hq
          rw [show renderWith q (none :: ch) = q ++ renderWith q ch from rfl] at hq
          rw [show renderWith r (none :: ch) = r ++ renderWith r ch from rfl]
          rcases infix_append_cases hq with h1 | h1 | ⟨k, hk0, hklt, htake, hdrop⟩
          · exact absurd h1 hmq
          · exact (ih r h1).trans (List.suffix_append r _).isInfix
          · exfalso
            have hkq : k ≤ q.length := by
              have := htake.length_le
              rwa [List.length_take, min_eq_left (Nat.le_of_lt hklt)] at this
            exact (hedge k hk0 (Nat.le_of_lt hklt) hkq).1 htake

/-- Decidable side conditions under which the pass for the pattern `q`
itself leaves no (case-insensitive) occurrence of `q` behind: `q` does not
occur in its replacement, no tail of `q` meets a replacement block from the
left or subsumes one, and no proper head of `q` ends a block. -/
def selfOK (q r : List Char) : Bool :=
  decide (2 ≤ q.length) && !(occB q r) &&
  ((List.range q.length).all fun k =>
    !(prefixB (q.drop k) r) && !(prefixB r (q.drop k))) &&
  ((List.range q.length).all fun k =>
    decide (k = 0) || !(suffixB (q.take k) r))

theorem selfOK_spec {q r : List Char} (h : selfOK q r = true) :
    2 ≤ q.length ∧ ¬ (q <:+: r) ∧
    (∀ k, k < q.length → ¬ (q.drop k <+: r) ∧ ¬ (r <+: q.drop k)) ∧
    (∀ k, 0 < k → k < q.length → ¬ (q.take k <:+ r)) := by
  simp only [selfOK, Bool.and_eq_true, decide_eq_true_eq, List.all_eq_true,
    List.mem_range, Bool.not_eq_true', Bool.or_eq_true] at h
  obtain ⟨⟨⟨h1, h2⟩, h3⟩, h4⟩ := h
  refine ⟨h1, ?_, ?_, ?_⟩
  · intro hocc
    rw [← occB_iff, h2] at hocc
    cases hocc
  · intro k hk
    constructor
    · intro hpre
      rw [← prefixB_iff, (h3 k hk).1] at hpre
      cases hpre
    · intro hpre
      rw [← prefixB_iff, (h3 k hk).2] at hpre
      cases hpre
  · intro k h0 hk hsuf
    rcases h4 k hk with hz | hfalse
    · omega
    · exact absurd ((suffixB_iff _ _).mpr hsuf) (by simp [hfalse])

theorem self_aux {q r₀ : List Char} (hok : selfOK q (lowerL r₀) = true) :
    ∀ (fuel : Nat) (s : List Char) (k : Nat), 0 < k → k < q.length →
      q.drop k <+: lowerL (replaceAllCIF q r₀ fuel s) → q.drop k <+: lowerL s := by
  obtain ⟨hlen, hnocc, hdrops, hcross⟩ := selfOK_spec hok
  intro fuel
  induction fuel with
  | zero => exact fun s k _ _ h => h
  | succ fuel ih =>
      intro s k h0 hk hpre
      cases s with
      | nil => exact hpre
      | cons c t =>
          by_cases hg : q ≠ [] ∧ ciPrefixB q (c :: t) = true
          · rw [show replaceAllCIF q r₀ (fuel + 1) (c :: t) =
                r₀ ++ replaceAllCIF q r₀ fuel ((c :: t).drop q.length) from by
                rw [replaceAllCIF, if_pos hg], lowerL_append] at hpre
            rcases prefix_append_split hpre with h1 | ⟨h1, _⟩
            · exact absurd h1 (hdrops k hk).1
            · exact absurd h1 (hdrops k hk).2
          · rw [show replaceAllCIF q r₀ (fuel + 1) (c :: t) =
                c :: replaceAllCIF q r₀ fuel t from by
                rw [replaceAllCIF, if_neg hg]] at hpre
            rw [show lowerL (c :: replaceAllCIF q r₀ fuel t) =
              lowerChar c :: lowerL (replaceAllCIF q r₀ fuel t) from rfl] at hpre
            rw [List.drop_eq_getElem_cons hk] at hpre ⊢
            obtain ⟨hc, hrest⟩ := List.cons_prefix_cons.mp hpre
            show _ <+: lowerChar c :: lowerL t
            rcases Nat.lt_or_ge (k + 1) q.length with hlt | hge
            · exact List.cons_prefix_cons.mpr ⟨hc, ih t (k + 1) (by omega) hlt hrest⟩
            · have hnil : q.drop (k + 1) = [] := List.drop_eq_nil_of_le hge
              rw [hnil]
              exact List.cons_prefix_cons.mpr ⟨hc, List.nil_prefix⟩

theorem self_removed {q r₀ : List Char} (hok : selfOK q (lowerL r₀) = true)
    (hlow : lowerL q = q) :
    ∀ (fuel : Nat) (s : List Char), s.length ≤ fuel →
      ¬ q <:+: lowerL (replaceAllCIF q r₀ fuel s) := by
  obtain ⟨hlen, hnocc, hdrops, hcross⟩ := selfOK_spec hok
  intro fuel
  induction fuel with
  | zero =>
      intro s hle hocc
      have hs : s = [] := List.eq_nil_of_length_eq_zero (Nat.le_zero.mp hle)
      subst hs
      have : q = [] := List.eq_nil_of_infix_nil hocc
      rw [this] at hlen
      simp at hlen
  | succ fuel ih =>
      intro s hle hocc
      cases s with
      | nil =>
          have : q = [] := List.eq_nil_of_infix_nil hocc
          rw [this] at hlen
          simp at hlen
      | cons c t =>
          by_cases hg : q ≠ [] ∧ ciPrefixB q (c :: t) = true
          · rw [show replaceAllCIF q r₀ (fuel + 1) (c :: t) =
                r₀ ++ replaceAllCIF q r₀ fuel ((c :: t).drop q.length) from by
                rw [replaceAllCIF, if_pos hg], lowerL_append] at hocc
            rcases infix_append_cases hocc with h1 | h1 | ⟨k, hk0, hklt, htake, _⟩
            · exact hnocc h1
            · refine ih ((c :: t).drop q.length) ?_ h1
              have hq1 : q.length ≥ 1 := by omega
              simp only [List.length_cons] at hle
              simp only [List.length_drop, List.length_cons]
              omega
            · exact hcross k hk0 hklt htake
          · rw [show replaceAllCIF q r₀ (fuel + 1) (c :: t) =
                c :: replaceAllCIF q r₀ fuel t from by
                rw [replaceAllCIF, if_neg hg]] at hocc
            rw [show lowerL (c :: replaceAllCIF q r₀ fuel t) =
              lowerChar c :: lowerL (replaceAllCIF q r₀ fuel t) from rfl] at hocc
            rcases List.infix_cons_iff.mp hocc with hpre | hinf
            · -- a full match starts right here: contradicts the guard
              have hqne : q ≠ [] := by
                intro hq
                rw [hq] at hlen
                simp at hlen
              obtain ⟨d, q', hdq⟩ := List.exists_cons_of_ne_nil hqne
              obtain ⟨rest, hrest2⟩ := hpre
              rw [hdq, List.cons_append] at hrest2
              have hdc : d = lowerChar c := by injection hrest2
              have htail : q' ++ rest = lowerL (replaceAllCIF (d :: q') r₀ fuel t) := by
                injection hrest2 with hh ht
              have hq1 : q.drop 1 <+: lowerL (replaceAllCIF q r₀ fuel t) := by
                rw [hdq]
                exact ⟨rest, htail⟩
              have h1lt : 1 < q.length := by omega
              have hqt : q.drop 1 <+: lowerL t :=
                self_aux hok fuel t 1 (by omega) h1lt hq1
              apply hg
              refine ⟨hqne, ?_⟩
              rw [ciPrefixB, hlow, prefixB_iff]
              show q <+: lowerL (c :: t)
              rw [show lowerL (c :: t) = lowerChar c :: lowerL t from rfl, hdq]
              refine List.cons_prefix_cons.mpr ⟨hdc, ?_⟩
              rw [hdq] at hqt
              exact hqt
            · exact ih t (by simpa using Nat.le_of_succ_le_succ hle) hinf

/-! #### Lifting the pass theory to `_tone_down_response` and `validate` -/

theorem string_data_append (a b : String) : (a ++ b).data = a.data ++ b.data := rfl

/-- One substitution pass of `_tone_down_response`, as folded over the
`replacements` table. -/
def tdStep (acc : String) (pr : String × String) : String :=
  String.mk (replaceAllCI pr.1.data pr.2.data acc.data)

theorem tone_down_response_eq (r : String) (df : List String) :
    ResponseValidator.tone_down_response r df =
      ResponseValidator.replacements.foldl tdStep r := rfl

theorem tdStep_keeps_absent (p : List Char) (pr : String × String) (s : String)
    (hq : lowerL pr.1.data = pr.1.data)
    (hok : removalOK p pr.1.data (lowerL pr.2.data) = true)
    (habs : ¬ p <:+: lowerL s.data) :
    ¬ p <:+: lowerL (tdStep s pr).data := by
  intro hocc
  have hout : lowerL (tdStep s pr).data =
      renderWith (lowerL pr.2.data)
        (chunksCIF pr.1.data s.data.length s.data) := by
    show lowerL (replaceAllCIF pr.1.data pr.2.data s.data.length s.data) = _
    exact renderWith_repl _ _ _ _
  have hin : lowerL s.data =
      renderWith pr.1.data (chunksCIF pr.1.data s.data.length s.data) :=
    renderWith_pat pr.1.data hq _ _
  rw [hout] at hocc
  rw [hin] at habs
  exact removal_preserved hok _ habs hocc

theorem tdStep_keeps_present (m : List Char) (pr : String × String) (s : String)
    (hq : lowerL pr.1.data = pr.1.data)
    (hno : overlapsB m pr.1.data = false)
    (hpres : m <:+: lowerL s.data) :
    m <:+: lowerL (tdStep s pr).data := by
  have hout : lowerL (tdStep s pr).data =
      renderWith (lowerL pr.2.data)
        (chunksCIF pr.1.data s.data.length s.data) := by
    show lowerL (replaceAllCIF pr.1.data pr.2.data s.data.length s.data) = _
    exact renderWith_repl _ _ _ _
  have hin : lowerL s.data =
      renderWith pr.1.data (chunksCIF pr.1.data s.data.length s.data) :=
    renderWith_pat pr.1.data hq _ _
  rw [hout]
  rw [hin] at hpres
  exact pres_preserved hno _ _ hpres

theorem tdStep_inserts (pr : String × String) (s : String)
    (hne : pr.1.data ≠ []) (hq : lowerL pr.1.data = pr.1.data)
    (hocc : pr.1.data <:+: lowerL s.data) :
    lowerL pr.2.data <:+: lowerL (tdStep s pr).data := by
  have hout : lowerL (tdStep s pr).data =
      renderWith (lowerL pr.2.data)
        (chunksCIF pr.1.data s.data.length s.data) := by
    show lowerL (replaceAllCIF pr.1.data pr.2.data s.data.length s.data) = _
    exact renderWith_repl _ _ _ _
  rw [hout]
  exact renderWith_block _ _
    (chunks_has_block hne hq s.data.length s.data (le_refl _) hocc)

theorem tdStep_removes (pr : String × String) (s : String)
    (hq : lowerL pr.1.data = pr.1.data)
    (hok : selfOK pr.1.data (lowerL pr.2.data) = true) :
    ¬ pr.1.data <:+: lowerL (tdStep s pr).data := by
  show ¬ pr.1.data <:+: lowerL (replaceAllCIF pr.1.data pr.2.data s.data.length s.data)
  exact self_removed hok hq s.data.length s.data (le_refl _)

theorem foldl_keeps_absent (p : List Char) :
    ∀ (prs : List (String × String)) (s : String),
      (prs.all fun pr =>
        (decide (lowerL pr.1.data = pr.1.data)) &&
          removalOK p pr.1.data (lowerL pr.2.data)) = true →
      ¬ p <:+: lowerL s.data →
      ¬ p <:+: lowerL (prs.foldl tdStep s).data := by
  intro prs
  induction prs with
  | nil => exact fun s _ h => h
  | cons pr t ih =>
      intro s hall habs
      rw [List.foldl_cons]
      simp only [List.all_cons, Bool.and_eq_true, decide_eq_true_eq] at hall
      exact ih (tdStep s pr) (by
        simp only [List.all_eq_true]
        intro x hx
        have := hall.2
        simp only [List.all_eq_true] at this
        exact this x hx)
        (tdStep_keeps_absent p pr s hall.1.1 hall.1.2 habs)

theorem foldl_keeps_present (m : List Char) :
    ∀ (prs : List (String × String)) (s : String),
      (prs.all fun pr =>
        (decide (lowerL pr.1.data = pr.1.data)) &&
          !(overlapsB m pr.1.data)) = true →
      m <:+: lowerL s.data →
      m <:+: lowerL (prs.foldl tdStep s).data := by
  intro prs
  induction prs with
  | nil => exact fun s _ h => h
  | cons pr t ih =>
      intro s hall hpres
      rw [List.foldl_cons]
      simp only [List.all_cons, Bool.and_eq_true, decide_eq_true_eq,
        Bool.not_eq_true'] at hall
      exact ih (tdStep s pr) (by
        simp only [List.all_eq_true]
        intro x hx
        have := hall.2
        simp only [List.all_eq_true] at this
        exact this x hx)
        (tdStep_keeps_present m pr s hall.1.1 hall.1.2 hpres)

/-- A key whose own pass wipes it (`selfOK`) and which no later pass can
re-create (`removalOK` against each later pair) is absent from the
lower-cased output of `_tone_down_response`. -/
theorem toned_key_removed (key repl : String) (pre post : List (String × String))
    (r : String) (df : List String)
    (hsplit : ResponseValidator.replacements = pre ++ (key, repl) :: post)
    (hq : lowerL key.data = key.data)
    (hok : selfOK key.data (lowerL repl.data) = true)
    (hall : (post.all fun pr =>
      (decide (lowerL pr.1.data = pr.1.data)) &&
        removalOK key.data pr.1.data (lowerL pr.2.data)) = true) :
    ¬ key.data <:+: lowerL (ResponseValidator.tone_down_response r df).data := by
  rw [tone_down_response_eq, hsplit, List.foldl_append, List.foldl_cons]
  exact foldl_keeps_absent key.data post _ hall
    (tdStep_removes (key, repl) _ hq hok)

/-- A key present in the lower-cased input, not overlapping any earlier
pass, puts its replacement into the output of its own pass, and the
replacement survives every later non-overlapping pass. -/
theorem toned_repl_inserted (key repl : String) (pre post : List (String × String))
    (r : String) (df : List String)
    (hsplit : ResponseValidator.replacements = pre ++ (key, repl) :: post)
    (hpre : (pre.all fun pr =>
      (decide (lowerL pr.1.data = pr.1.data)) &&
        !(overlapsB key.data pr.1.data)) = true)
    (hne : key.data ≠ []) (hq : lowerL key.data = key.data)
    (hrl : lowerL repl.data = repl.data)
    (hpost : (post.all fun pr =>
      (decide (lowerL pr.1.data = pr.1.data)) &&
        !(overlapsB repl.data pr.1.data)) = true)
    (hocc : key.data <:+: lowerL r.data) :
    repl.data <:+: lowerL (ResponseValidator.tone_down_response r df).data := by
  rw [tone_down_response_eq, hsplit, List.foldl_append, List.foldl_cons]
  have h1 : key.data <:+: lowerL (List.foldl tdStep r pre).data :=
    foldl_keeps_present key.data pre r hpre hocc
  have h2 : lowerL repl.data <:+:
      lowerL (tdStep (List.foldl tdStep r pre) (key, repl)).data :=
    tdStep_inserts (key, repl) _ hne hq h1
  rw [hrl] at h2
  exact foldl_keeps_present repl.data post _ hpost h2

/-- Decidable conditions under which appending `d` (the disclaimer) cannot
create an occurrence of `p`: `p` does not occur in `d` and no proper tail
of `p` is a prefix of `d`. -/
def appendOK (p d : List Char) : Bool :=
  !(occB p d) &&
  ((List.range p.length).all fun k => decide (k = 0) || !(prefixB (p.drop k) d))

theorem append_keeps_absent {p a d : List Char} (hok : appendOK p d = true)
    (ha : ¬ p <:+: a) : ¬ p <:+: a ++ d := by
  simp only [appendOK, Bool.and_eq_true, List.all_eq_true, List.mem_range,
    Bool.not_eq_true', Bool.or_eq_true, decide_eq_true_eq] at hok
  obtain ⟨h1, h2⟩ := hok
  intro hocc
  rcases infix_append_cases hocc with hx | hx | ⟨k, hk0, hklt, _, hdropd⟩
  · exact ha hx
  · rw [← occB_iff, h1] at hx
    cases hx
  · rcases h2 k hklt with hz | hf
    · omega
    · rw [← prefixB_iff, hf] at hdropd
      cases hdropd

theorem occB_eq_false_of_not {p l : List Char} (h : ¬ p <:+: l) :
    occB p l = false := by
  cases hx : occB p l with
  | false => rfl
  | true => exact absurd ((occB_iff _ _).mp hx) h

/-- With a non-empty dangerous-phrase list, `validate` rewrites the response
through `_tone_down_response` and (when triggered) appends the disclaimer. -/
theorem modified_eq (response query : String) (docs : List String)
    (hdf : (ResponseValidator.check_dangerous_content response).isEmpty = false) :
    (ResponseValidator.validate response query docs).modified_response =
      if ResponseValidator.needs_disclaimer_b response then
        ResponseValidator.tone_down_response response
          (ResponseValidator.check_dangerous_content response) ++
          ResponseValidator.disclaimerText
      else ResponseValidator.tone_down_response response
          (ResponseValidator.check_dangerous_content response) := by
  have h1 : (if (ResponseValidator.check_dangerous_content response).isEmpty then
        response
      else ResponseValidator.tone_down_response response
        (ResponseValidator.check_dangerous_content response)) =
      ResponseValidator.tone_down_response response
        (ResponseValidator.check_dangerous_content response) := by
    rw [hdf]
    simp
  show (if ResponseValidator.needs_disclaimer_b response then
      (if (ResponseValidator.check_dangerous_content response).isEmpty then
        response
       else ResponseValidator.tone_down_response response
         (ResponseValidator.check_dangerous_content response)) ++
        ResponseValidator.disclaimerText
     else (if (ResponseValidator.check_dangerous_content response).isEmpty then
        response
       else ResponseValidator.tone_down_response response
         (ResponseValidator.check_dangerous_content response))) = _
  rw [h1]

theorem modified_key_absent (response query : String) (docs : List String)
    (key : String)
    (hdf : (ResponseValidator.check_dangerous_content response).isEmpty = false)
    (htoned : ¬ key.data <:+: lowerL (ResponseValidator.tone_down_response response
      (ResponseValidator.check_dangerous_content response)).data)
    (hax : appendOK key.data (lowerL ResponseValidator.disclaimerText.data) = true) :
    ¬ key.data <:+:
      lowerL (ResponseValidator.validate response query docs).modified_response.data := by
  rw [modified_eq response query docs hdf]
  by_cases htrig : ResponseValidator.needs_disclaimer_b response = true
  · rw [if_pos htrig]
    intro hocc2
    rw [string_data_append, lowerL_append] at hocc2
    exact append_keeps_absent hax htoned hocc2
  · rw [if_neg htrig]
    exact htoned

theorem modified_present (response query : String) (docs : List String)
    (m : List Char)
    (hdf : (ResponseValidator.check_dangerous_content response).isEmpty = false)
    (htoned : m <:+: lowerL (ResponseValidator.tone_down_response response
      (ResponseValidator.check_dangerous_content response)).data) :
    m <:+:
      lowerL (ResponseValidator.validate response query docs).modified_response.data := by
  rw [modified_eq response query docs hdf]
  by_cases htrig : ResponseValidator.needs_disclaimer_b response = true
  · rw [if_pos htrig, string_data_append, lowerL_append]
    exact List.IsInfix.trans htoned (List.prefix_append _ _).isInfix
  · rw [if_neg htrig]
    exact htoned

/-- C5 (counterexample): the rewrite of `validate` does not eliminate every
detected dangerous phrase, nor always insert a replacement.  First:
`free money` has no entry in the substitution table, so the flagged
response `This is free money` still contains it after rewriting.  Second:
in `totally risk-free-free deal` the pass replacing `risk-free` by
`lower risk` re-creates `risk-free` at the boundary with the following
`-free`.  Third: in `there is no risk-free lunch` the earlier `risk-free`
pass consumes the text of `no risk`, so its replacement `reduced risk`
never appears.  Fourth: in `guaranteedefinitely safe` the `guaranteed`
pass consumes the prefix of `definitely`, so `possibly` never appears
although `definitely safe` was detected. -/
theorem C5_counterexample :
    ("free money" ∈ ResponseValidator.dangerous_phrases ∧
      containsS (LLMManager.pyLower "This is free money") "free money" = true ∧
      (ResponseValidator.validate "This is free money" "q" []).is_safe = false ∧
      containsS (LLMManager.pyLower
        (ResponseValidator.validate "This is free money" "q" []).modified_response)
        "free money" = true) ∧
    ("risk-free" ∈ ResponseValidator.dangerous_phrases ∧
      containsS (LLMManager.pyLower "totally risk-free-free deal") "risk-free" = true ∧
      containsS (LLMManager.pyLower
        (ResponseValidator.validate "totally risk-free-free deal" "q" []).modified_response)
        "risk-free" = true) ∧
    ("no risk" ∈ ResponseValidator.dangerous_phrases ∧
      containsS (LLMManager.pyLower "there is no risk-free lunch") "no risk" = true ∧
      containsS (LLMManager.pyLower
        (ResponseValidator.validate "there is no risk-free lunch" "q" []).modified_response)
        "reduced risk" = false) ∧
    ("definitely safe" ∈ ResponseValidator.dangerous_phrases ∧
      containsS (LLMManager.pyLower "guaranteedefinitely safe") "definitely safe" = true ∧
      containsS (LLMManager.pyLower
        (ResponseValidator.validate "guaranteedefinitely safe" "q" []).modified_response)
        "possibly" = false) := by
  refine ⟨⟨?_, ?_, ?_, ?_⟩, ⟨?_, ?_, ?_⟩, ⟨?_, ?_, ?_⟩, ⟨?_, ?_, ?_⟩⟩ <;> decide

/-- C5: for every response containing a phrase of `dangerous_phrases`
(case-insensitively), `validate` marks `is_safe = false`.  The rewritten
`modified_response` is guaranteed to no longer contain the phrase for
every phrase except `risk-free` (which a replacement boundary can
re-create) and the three phrases without any substitution entry
(`zero risk`, `free money`, `get rich quick`); and it is guaranteed to
contain the mapped replacement for the phrases keyed on `guaranteed`,
`100%` and the two `lose` phrases.  (For `definitely safe` and `no risk`
an earlier pass can consume the phrase before its own pass runs, so the
replacement insertion is not guaranteed — see the counterexample.) -/
theorem C5_validate_dangerous (response query : String) (docs : List String)
    (p : String) (hp : p ∈ ResponseValidator.dangerous_phrases)
    (hocc : containsS (LLMManager.pyLower response) p = true) :
    (ResponseValidator.validate response query docs).is_safe = false ∧
    (p ≠ "risk-free" → p ≠ "zero risk" → p ≠ "free money" →
      p ≠ "get rich quick" →
      containsS (LLMManager.pyLower
        (ResponseValidator.validate response query docs).modified_response)
        p = false) ∧
    ((p = "guaranteed returns" ∨ p = "guaranteed profit") →
      containsS (LLMManager.pyLower
        (ResponseValidator.validate response query docs).modified_response)
        "potentially possible" = true) ∧
    (p = "100% safe" →
      containsS (LLMManager.pyLower
        (ResponseValidator.validate response query docs).modified_response)
        "high" = true) ∧
    ((p = ResponseValidator.canTLose ∨ p = "cannot lose") →
      containsS (LLMManager.pyLower
        (ResponseValidator.validate response query docs).modified_response)
        "lower risk of loss" = true) := by
  have hdf : (ResponseValidator.check_dangerous_content response).isEmpty = false := by
    have hmem : ("dangerous_claim: " ++ p) ∈
        ResponseValidator.check_dangerous_content response :=
      List.mem_filterMap.mpr ⟨p, hp, by rw [hocc]; rfl⟩
    cases hcd : ResponseValidator.check_dangerous_content response with
    | nil =>
        rw [hcd] at hmem
        cases hmem
    | cons a t => rfl
  have hkeyocc : ∀ key : String, key.data <:+: p.data →
      key.data <:+: lowerL response.data := fun key hkp =>
    List.IsInfix.trans hkp ((occB_iff _ _).mp hocc)
  have habsC : ∀ key : String, key.data <:+: p.data →
      (¬ key.data <:+: lowerL (ResponseValidator.tone_down_response response
        (ResponseValidator.check_dangerous_content response)).data) →
      appendOK key.data (lowerL ResponseValidator.disclaimerText.data) = true →
      containsS (LLMManager.pyLower
        (ResponseValidator.validate response query docs).modified_response)
        p = false := by
    intro key hkp htoned hax
    have hmod := modified_key_absent response query docs key hdf htoned hax
    exact occB_eq_false_of_not (fun hpl => hmod (List.IsInfix.trans hkp hpl))
  have hinsC : ∀ repl : String,
      (repl.data <:+: lowerL (ResponseValidator.tone_down_response response
        (ResponseValidator.check_dangerous_content response)).data) →
      containsS (LLMManager.pyLower
        (ResponseValidator.validate response query docs).modified_response)
        repl = true := by
    intro repl htoned
    exact (occB_iff _ _).mpr (modified_present response query docs repl.data hdf htoned)
  simp only [ResponseValidator.dangerous_phrases, List.mem_cons,
    List.not_mem_nil, or_false] at hp
  rcases hp with rfl | rfl | rfl | rfl | rfl | rfl | rfl | rfl | rfl | rfl | rfl
  · -- guaranteed returns
    refine ⟨hdf, ?_, ?_, ?_, ?_⟩
    · intro _ _ _ _
      exact habsC "guaranteed" (by decide)
        (toned_key_removed "guaranteed" "potentially possible" []
          [("definitely", "possibly"), ("always", "often"), ("never", "rarely"),
           ("100%", "high"), ("risk-free", "lower risk"),
           ("no risk", "reduced risk"),
           (ResponseValidator.canTLose, "lower risk of loss"),
           ("cannot lose", "lower risk of loss")]
          response (ResponseValidator.check_dangerous_content response)
          rfl (by decide) (by decide) (by decide))
        (by decide)
    · intro _
      exact hinsC "potentially possible"
        (toned_repl_inserted "guaranteed" "potentially possible" []
          [("definitely", "possibly"), ("always", "often"), ("never", "rarely"),
           ("100%", "high"), ("risk-free", "lower risk"),
           ("no risk", "reduced risk"),
           (ResponseValidator.canTLose, "lower risk of loss"),
           ("cannot lose", "lower risk of loss")]
          response (ResponseValidator.check_dangerous_content response)
          rfl (by decide) (by decide) (by decide) (by decide) (by decide)
          (hkeyocc "guaranteed" (by decide)))
    · intro h
      exact absurd h (by decide)
    · intro h
      rcases h with h | h <;> exact absurd h (by decide)
  · -- guaranteed profit
    refine ⟨hdf, ?_, ?_, ?_, ?_⟩
    · intro _ _ _ _
      exact habsC "guaranteed" (by decide)
        (toned_key_removed "guaranteed" "potentially possible" []
          [("definitely", "possibly"), ("always", "often"), ("never", "rarely"),
           ("100%", "high"), ("risk-free", "lower risk"),
           ("no risk", "reduced risk"),
           (ResponseValidator.canTLose, "lower risk of loss"),
           ("cannot lose", "lower risk of loss")]
          response (ResponseValidator.check_dangerous_content response)
          rfl (by decide) (by decide) (by decide))
        (by decide)
    · intro _
      exact hinsC "potentially possible"
        (toned_repl_inserted "guaranteed" "potentially possible" []
          [("definitely", "possibly"), ("always", "often"), ("never", "rarely"),
           ("100%", "high"), ("risk-free", "lower risk"),
           ("no risk", "reduced risk"),
           (ResponseValidator.canTLose, "lower risk of loss"),
           ("cannot lose", "lower risk of loss")]
          response (ResponseValidator.check_dangerous_content response)
          rfl (by decide) (by decide) (by decide) (by decide) (by decide)
          (hkeyocc "guaranteed" (by decide)))
    · intro h
      exact absurd h (by decide)
    · intro h
      rcases h with h | h <;> exact absurd h (by decide)
  · -- no risk
    refine ⟨hdf, ?_, ?_, ?_, ?_⟩
    · intro _ _ _ _
      exact habsC "no risk" List.infix_rfl
        (toned_key_removed "no risk" "reduced risk"
          [("guaranteed", "potentially possible"), ("definitely", "possibly"),
           ("always", "often"), ("never", "rarely"), ("100%", "high"),
           ("risk-free", "lower risk")]
          [(ResponseValidator.canTLose, "lower risk of loss"),
           ("cannot lose", "lower risk of loss")]
          response (ResponseValidator.check_dangerous_content response)
          rfl (by decide) (by decide) (by decide))
        (by decide)
    · intro h
      rcases h with h | h <;> exact absurd h (by decide)
    · intro h
      exact absurd h (by decide)
    · intro h
      rcases h with h | h <;> exact absurd h (by decide)
  · -- risk-free: no removal or insertion guarantee
    refine ⟨hdf, ?_, ?_, ?_, ?_⟩
    · intro h1 _ _ _
      exact absurd rfl h1
    · intro h
      rcases h with h | h <;> exact absurd h (by decide)
    · intro h
      exact absurd h (by decide)
    · intro h
      rcases h with h | h <;> exact absurd h (by decide)
  · -- definitely safe
    refine ⟨hdf, ?_, ?_, ?_, ?_⟩
    · intro _ _ _ _
      exact habsC "definitely" (by decide)
        (toned_key_removed "definitely" "possibly"
          [("guaranteed", "potentially possible")]
          [("always", "often"), ("never", "rarely"), ("100%", "high"),
           ("risk-free", "lower risk"), ("no risk", "reduced risk"),
           (ResponseValidator.canTLose, "lower risk of loss"),
           ("cannot lose", "lower risk of loss")]
          response (ResponseValidator.check_dangerous_content response)
          rfl (by decide) (by decide) (by decide))
        (by decide)
    · intro h
      rcases h with h | h <;> exact absurd h (by decide)
    · intro h
      exact absurd h (by decide)
    · intro h
      rcases h with h | h <;> exact absurd h (by decide)
  · -- can't lose
    refine ⟨hdf, ?_, ?_, ?_, ?_⟩
    · intro _ _ _ _
      exact habsC ResponseValidator.canTLose List.infix_rfl
        (toned_key_removed ResponseValidator.canTLose "lower risk of loss"
          [("guaranteed", "potentially possible"), ("definitely", "possibly"),
           ("always", "often"), ("never", "rarely"), ("100%", "high"),
           ("risk-free", "lower risk"), ("no risk", "reduced risk")]
          [("cannot lose", "lower risk of loss")]
          response (ResponseValidator.check_dangerous_content response)
          rfl (by decide) (by decide) (by decide))
        (by decide)
    · intro h
      rcases h with h | h <;> exact absurd h (by decide)
    · intro h
      exact absurd h (by decide)
    · intro _
      exact hinsC "lower risk of loss"
        (toned_repl_inserted ResponseValidator.canTLose "lower risk of loss"
          [("guaranteed", "potentially possible"), ("definitely", "possibly"),
           ("always", "often"), ("never", "rarely"), ("100%", "high"),
           ("risk-free", "lower risk"), ("no risk", "reduced risk")]
          [("cannot lose", "lower risk of loss")]
          response (ResponseValidator.check_dangerous_content response)
          rfl (by decide) (by decide) (by decide) (by decide) (by decide)
          (hkeyocc ResponseValidator.canTLose List.infix_rfl))
  · -- cannot lose
    refine ⟨hdf, ?_, ?_, ?_, ?_⟩
    · intro _ _ _ _
      exact habsC "cannot lose" List.infix_rfl
        (toned_key_removed "cannot lose" "lower risk of loss"
          [("guaranteed", "potentially possible"), ("definitely", "possibly"),
           ("always", "often"), ("never", "rarely"), ("100%", "high"),
           ("risk-free", "lower risk"), ("no risk", "reduced risk"),
           (ResponseValidator.canTLose, "lower risk of loss")]
          []
          response (ResponseValidator.check_dangerous_content response)
          rfl (by decide) (by decide) (by decide))
        (by decide)
    · intro h
      rcases h with h | h <;> exact absurd h (by decide)
    · intro h
      exact absurd h (by decide)
    · intro _
      exact hinsC "lower risk of loss"
        (toned_repl_inserted "cannot lose" "lower risk of loss"
          [("guaranteed", "potentially possible"), ("definitely", "possibly"),
           ("always", "often"), ("never", "rarely"), ("100%", "high"),
           ("risk-free", "lower risk"), ("no risk", "reduced risk"),
           (ResponseValidator.canTLose, "lower risk of loss")]
          []
          response (ResponseValidator.check_dangerous_content response)
          rfl (by decide) (by decide) (by decide) (by decide) (by decide)
          (hkeyocc "cannot lose" List.infix_rfl))
  · -- 100% safe
    refine ⟨hdf, ?_, ?_, ?_, ?_⟩
    · intro _ _ _ _
      exact habsC "100%" (by decide)
        (toned_key_removed "100%" "high"
          [("guaranteed", "potentially possible"), ("definitely", "possibly"),
           ("always", "often"), ("never", "rarely")]
          [("risk-free", "lower risk"), ("no risk", "reduced risk"),
           (ResponseValidator.canTLose, "lower risk of loss"),
           ("cannot lose", "lower risk of loss")]
          response (ResponseValidator.check_dangerous_content response)
          rfl (by decide) (by decide) (by decide))
        (by decide)
    · intro h
      rcases h with h | h <;> exact absurd h (by decide)
    · intro _
      exact hinsC "high"
        (toned_repl_inserted "100%" "high"
          [("guaranteed", "potentially possible"), ("definitely", "possibly"),
           ("always", "often"), ("never", "rarely")]
          [("risk-free", "lower risk"), ("no risk", "reduced risk"),
           (ResponseValidator.canTLose, "lower risk of loss"),
           ("cannot lose", "lower risk of loss")]
          response (ResponseValidator.check_dangerous_content response)
          rfl (by decide) (by decide) (by decide) (by decide) (by decide)
          (hkeyocc "100%" (by decide)))
    · intro h
      rcases h with h | h <;> exact absurd h (by decide)
  · -- zero risk
    refine ⟨hdf, ?_, ?_, ?_, ?_⟩
    · intro _ h2 _ _
      exact absurd rfl h2
    · intro h
      rcases h with h | h <;> exact absurd h (by decide)
    · intro h
      exact absurd h (by decide)
    · intro h
      rcases h with h | h <;> exact absurd h (by decide)
  · -- free money
    refine ⟨hdf, ?_, ?_, ?_, ?_⟩
    · intro _ _ h3 _
      exact absurd rfl h3
    · intro h
      rcases h with h | h <;> exact absurd h (by decide)
    · intro h
      exact absurd h (by decide)
    · intro h
      rcases h with h | h <;> exact absurd h (by decide)
  · -- get rich quick
    refine ⟨hdf, ?_, ?_, ?_, ?_⟩
    · intro _ _ _ h4
      exact absurd rfl h4
    · intro h
      rcases h with h | h <;> exact absurd h (by decide)
    · intro h
      exact absurd h (by decide)
    · intro h
      rcases h with h | h <;> exact absurd h (by decide)

theorem C5_validate_dangerous_witness :
    ("guaranteed returns" ∈ ResponseValidator.dangerous_phrases ∧
     containsS (LLMManager.pyLower "Guaranteed returns on this coin")
       "guaranteed returns" = true) ∧
    ((ResponseValidator.validate "Guaranteed returns on this coin" "is it safe"
        []).is_safe = false ∧
     (("guaranteed returns" : String) ≠ "risk-free" →
      ("guaranteed returns" : String) ≠ "zero risk" →
      ("guaranteed returns" : String) ≠ "free money" →
      ("guaranteed returns" : String) ≠ "get rich quick" →
      containsS (LLMManager.pyLower
        (ResponseValidator.validate "Guaranteed returns on this coin" "is it safe"
          []).modified_response) "guaranteed returns" = false) ∧
     ((("guaranteed returns" : String) = "guaranteed returns" ∨
       ("guaranteed returns" : String) = "guaranteed profit") →
      containsS (LLMManager.pyLower
        (ResponseValidator.validate "Guaranteed returns on this coin" "is it safe"
          []).modified_response) "potentially possible" = true) ∧
     (("guaranteed returns" : String) = "100% safe" →
      containsS (LLMManager.pyLower
        (ResponseValidator.validate "Guaranteed returns on this coin" "is it safe"
          []).modified_response) "high" = true) ∧
     ((("guaranteed returns" : String) = ResponseValidator.canTLose ∨
       ("guaranteed returns" : String) = "cannot lose") →
      containsS (LLMManager.pyLower
        (ResponseValidator.validate "Guaranteed returns on this coin" "is it safe"
          []).modified_response) "lower risk of loss" = true)) :=
  ⟨⟨by decide, by decide⟩,
   C5_validate_dangerous "Guaranteed returns on this coin" "is it safe" []
     "guaranteed returns" (by decide) (by decide)⟩
